import Mathlib

/-!
Shallow embedding of the `cobs-ts` constrained B-spline fitting library.

Real (IEEE double) arithmetic of the source is embedded as exact rational
arithmetic (`ℚ`); number-valued JavaScript expressions become `ℚ`-valued Lean
terms, `Math.round` becomes `Int.floor (q + 1/2)` (JavaScript rounds halves
toward +∞), and code that can throw is embedded in `Except`.  A separate small
type `JSNum` (rationals extended with `inf`/`ninf`/`nan`) is used where the
distinction between a guarded and an unguarded division matters.

Sources embedded: `src/cobs.ts` (class `Cobs`), `src/solver.ts` (`LPSolver`),
`src/matrix.ts` (`Matrix`), and the unnamed B-spline file (`class BSpline`,
`src/unnamed/part_000`).
-/

set_option linter.unusedVariables false
set_option linter.unnecessarySimpa false

-- The Batteries rational-number operations are `@[irreducible]` by default,
-- which blocks kernel evaluation of closed `ℚ` terms in `decide`; all
-- concrete witnesses/counterexamples below evaluate exact rationals.
attribute [local semireducible] Rat.add Rat.mul Rat.sub Rat.inv Rat.ofScientific

namespace CobsTs

/-- `Math.round(v * 1e12) / 1e12`, as applied by `Cobs` to design-matrix
entries and final coefficients.  JavaScript `Math.round` is `⌊v + 1/2⌋`. -/
def jsRound12 (q : ℚ) : ℚ := (⌊q * 10 ^ 12 + 1 / 2⌋ : ℚ) / 10 ^ 12

/-- The `this.tol = 1e-10` sparse-build threshold of `Cobs`. -/
def tolBuild : ℚ := 1 / 10 ^ 10

/-- The `tol = 1e-12` tolerance of `LPSolver`. -/
def lpTol : ℚ := 1 / 10 ^ 12

/-- Knot access `knots[i]`; all in-range uses are backed by bounds reasoning,
the default is never observable in the claims below. -/
def knotAt (T : List ℚ) (i : ℕ) : ℚ := T.getD i 0

/-- The binary-search loop of `findSpan` (identical in `cobs.ts` and in the
unnamed `BSpline` file), with explicit fuel.  At each entry `mid` is
recomputed; the JS `while (x < knots[mid] || x >= knots[mid+1])` condition
decides whether to return `mid` or shrink the bracket. -/
def findSpanLoop (T : List ℚ) (x : ℚ) : ℕ → ℕ → ℕ → ℕ
  | fuel, low, high =>
    let mid := (low + high) / 2
    if x < knotAt T mid ∨ knotAt T (mid + 1) ≤ x then
      match fuel with
      | 0 => mid
      | fuel + 1 =>
        if x < knotAt T mid then findSpanLoop T x fuel low mid
        else findSpanLoop T x fuel mid high
    else mid

/-- `Cobs.findSpan(x, order, knots)`: clamp to `n_deboor` above the last
distinct knot, to `order` below the first, otherwise binary search.
Fuel `T.length` is enough for the bracket to collapse. -/
def findSpan (x : ℚ) (order : ℕ) (T : List ℚ) : ℕ :=
  let nd := T.length - order - 2
  if knotAt T (nd + 1) ≤ x then nd
  else if x ≤ knotAt T order then order
  else findSpanLoop T x T.length order (nd + 1)

/-- Inner loop (`for r = 0; r < j; r++`) of the guarded de Boor recurrence of
`Cobs.evaluateBasis`: rebuilds the basis prefix for level `j` from the level
`j-1` prefix, threading the `saved` accumulator and appending it at the end
(`basis[j] = saved`).  The division is guarded: `if (den !== 0)`. -/
def deBoorGo (lt rt : ℕ → ℚ) (j : ℕ) : ℕ → ℚ → List ℚ → List ℚ
  | _, saved, [] => [saved]
  | r, saved, b :: rest =>
    let den := rt (r + 1) + lt (j - r)
    let temp := if den = 0 then 0 else b / den
    (saved + rt (r + 1) * temp) :: deBoorGo lt rt j (r + 1) (lt (j - r) * temp) rest

/-- `Cobs.evaluateBasis(x, order, span, knots)`: the guarded de Boor triangular
recurrence.  `left[j] = x - knots[span+1-j]`, `right[j] = knots[span+j] - x`;
levels `j = 1..order` are applied to the initial `basis = [1]`. -/
def evaluateBasis (x : ℚ) (order span : ℕ) (T : List ℚ) : List ℚ :=
  (List.range' 1 order).foldl
    (fun basis j =>
      deBoorGo (fun i => x - knotAt T (span + 1 - i)) (fun i => knotAt T (span + i) - x)
        j 0 0 basis)
    [1]

/-- `Cobs.generateKnots(x)`: `order+1` copies of `x[0]`, then
`n - (order+1)` equally spaced interior knots when that count is positive,
then `order+1` copies of `x[n-1]`. -/
def generateKnots (order : ℕ) (x : List ℚ) : List ℚ :=
  let n := x.length
  let mn := x.getD 0 0
  let mx := x.getD (n - 1) 0
  let numInterior := n - (order + 1)
  let step := (mx - mn) / (numInterior + 1)
  List.replicate (order + 1) mn
    ++ (List.range' 1 numInterior).map (fun (i : ℕ) => mn + (i : ℚ) * step)
    ++ List.replicate (order + 1) mx

/-- Spec-side predicate for claim C6 (knot bookkeeping), at order `k` on
data `x`, stated over the generated vector `T = generateKnots k x`:
corrected length formula, clamped ends, interior strictly inside, and
non-decreasing. -/
def KnotSpec (k : ℕ) (x : List ℚ) : Prop :=
  let T := generateKnots k x
  T.length = max x.length (k + 1) + k + 1 ∧
  T.take (k + 1) = List.replicate (k + 1) (x.getD 0 0) ∧
  T.drop (T.length - (k + 1)) = List.replicate (k + 1) (x.getD (x.length - 1) 0) ∧
  (∀ t ∈ (T.drop (k + 1)).take (T.length - 2 * (k + 1)),
      x.getD 0 0 < t ∧ t < x.getD (x.length - 1) 0) ∧
  T.Chain' (· ≤ ·)

instance (k : ℕ) (x : List ℚ) : Decidable (KnotSpec k x) := by
  unfold KnotSpec; infer_instance

/-! ### Errors thrown by the embedded code

Each constructor corresponds to one family of `throw new Error(...)` sites;
the message string is carried verbatim.  `Cobs.fit` re-throws exactly the
errors whose message contains `Unsupported constraint type` or
`Unsupported operator`, which here is a constructor test. -/

inductive JsErr where
  | invalid (msg : String)
  | unsupportedConstraint (msg : String)
  | unsupportedOperator (msg : String)
  | singular (msg : String)
deriving DecidableEq

/-- The `catch` filter in `Cobs.fit`:
`error.message.includes('Unsupported constraint type') ||
 error.message.includes('Unsupported operator')`. -/
def JsErr.isUnsupported : JsErr → Bool
  | .unsupportedConstraint _ => true
  | .unsupportedOperator _ => true
  | _ => false

/-! ### Dense matrices with sparse-triplet construction (`src/matrix.ts`) -/

/-- Read entry `(i, j)` of a row-major dense payload.  In-range reads match
`Matrix.get`; the builders below only read in range. -/
def get2D (d : List (List ℚ)) (i j : ℕ) : ℚ := (d.getD i []).getD j 0

/-- Write entry `(i, j)`; `List.set` ignores out-of-range writes (never
exercised by the embedded callers, which all write in range). -/
def set2D (d : List (List ℚ)) (i j : ℕ) (v : ℚ) : List (List ℚ) :=
  d.set i ((d.getD i []).set j v)

def zeros2D (r c : ℕ) : List (List ℚ) := List.replicate r (List.replicate c 0)

structure Mat where
  rows : ℕ
  cols : ℕ
  dense : List (List ℚ)
deriving DecidableEq

def Mat.get (M : Mat) (i j : ℕ) : ℚ := get2D M.dense i j

/-- `new Matrix({rows, cols, data, rowIndices, colIndices})`: zero fill, then
one write per triplet.  The three parallel JS arrays, pushed in lockstep by
every builder, are zipped here into `(value, row, col)` triples. -/
def matOfSparse (rows cols : ℕ) (ts : List (ℚ × ℕ × ℕ)) : Mat :=
  ⟨rows, cols, ts.foldl (fun d t => set2D d t.2.1 t.2.2 t.1) (zeros2D rows cols)⟩

/-- `new Matrix(data)` from a 2-D array: rejects empty input and ragged rows. -/
def matOfArray (d : List (List ℚ)) : Except JsErr Mat :=
  match d with
  | [] => .error (.invalid ("Invalid matrix data: empty or malformed array"))
  | r0 :: _ =>
    if r0.length = 0 then .error (.invalid ("Invalid matrix data: empty or malformed array"))
    else if d.all (fun r => r.length = r0.length) then .ok ⟨d.length, r0.length, d⟩
    else .error (.invalid ("Invalid matrix data: rows have different lengths"))

def Mat.transpose (M : Mat) : Mat :=
  ⟨M.cols, M.rows, (List.range M.cols).map (fun j => (List.range M.rows).map (fun i => M.get i j))⟩

/-- `Matrix.multiply` (matrix case); all embedded call sites have matching
inner dimensions, so the dimension-mismatch throw is not reachable. -/
def Mat.mulMat (A B : Mat) : Mat :=
  ⟨A.rows, B.cols, (List.range A.rows).map (fun i =>
    (List.range B.cols).map (fun j =>
      ((List.range A.cols).map (fun k => A.get i k * B.get k j)).sum))⟩

/-- `Matrix.multiply` (vector case) and the solver's own
`multiplyMatrixVector`: row-by-row dot products over the column count. -/
def Mat.mulVec (A : Mat) (v : List ℚ) : List ℚ :=
  (List.range A.rows).map (fun i =>
    ((List.range A.cols).map (fun j => A.get i j * v.getD j 0)).sum)

/-- The solver's `multiplyVectorMatrix`: `y^T · A`. -/
def vecMulMat (v : List ℚ) (A : Mat) : List ℚ :=
  (List.range A.cols).map (fun j =>
    ((List.range A.rows).map (fun i => v.getD i 0 * A.get i j)).sum)

def dotProduct (x y : List ℚ) : ℚ :=
  ((List.range x.length).map (fun i => x.getD i 0 * y.getD i 0)).sum

/-! `Matrix.inverse()`: Gauss–Jordan on the augmented `(A | I)` with partial
pivoting; `null` when the pivot magnitude drops below `1e-10`. -/

/-- Augmented matrix `(A | I)` of a square matrix of size `n`. -/
def gjAugment (M : Mat) : List (List ℚ) :=
  (List.range M.rows).map (fun i =>
    (List.range M.rows).map (fun j => M.get i j)
      ++ (List.range M.rows).map (fun j => if i = j then (1 : ℚ) else 0))

/-- Partial pivoting: first row index in `[i, n)` with maximal `|aug[k][i]|`
(the JS loop updates only on strict increase). -/
def gjFindPivot (aug : List (List ℚ)) (i n : ℕ) : ℕ :=
  (List.range' (i + 1) (n - (i + 1))).foldl
    (fun best k => if |get2D aug k i| > |get2D aug best i| then k else best) i

/-- Row swap restricted to columns `k ≥ i` (the JS swap loop starts at `i`);
skipped when the pivot row is already `i`. -/
def gjSwapFrom (aug : List (List ℚ)) (i p : ℕ) : List (List ℚ) :=
  if p = i then aug
  else
    let ri := aug.getD i []
    let rp := aug.getD p []
    (aug.set i (ri.take i ++ rp.drop i)).set p (rp.take i ++ ri.drop i)

/-- Elimination below the pivot: for `k > i`, row `k` gets
`aug[k][j] + c·aug[i][j]` for `j > i` and an exact `0` at `j = i`. -/
def gjElimBelow (aug : List (List ℚ)) (i n : ℕ) : List (List ℚ) :=
  (List.range' (i + 1) (n - (i + 1))).foldl
    (fun d k =>
      let c := -(get2D d k i) / get2D d i i
      d.set k ((List.range (2 * n)).map (fun j =>
        if j < i then get2D d k j
        else if j = i then 0
        else get2D d k j + c * get2D d i j)))
    aug

def gjForward (n : ℕ) : List ℕ → List (List ℚ) → Option (List (List ℚ))
  | [], aug => some aug
  | i :: rest, aug =>
    let p := gjFindPivot aug i n
    if |get2D aug p i| < 1 / 10 ^ 10 then none
    else gjForward n rest (gjElimBelow (gjSwapFrom aug i p) i n)

/-- One back-substitution step: scale the right half of row `i` by
`1 / aug[i][i]`, then clear column `i` of the right halves of rows `k < i`. -/
def gjBackStep (d : List (List ℚ)) (i n : ℕ) : List (List ℚ) :=
  let d1 := d.set i ((List.range (2 * n)).map (fun j =>
    if n ≤ j then get2D d i j * (1 / get2D d i i) else get2D d i j))
  (List.range i).foldl
    (fun e k =>
      e.set k ((List.range (2 * n)).map (fun j =>
        if n ≤ j then get2D e k j - get2D e k i * get2D e i j else get2D e k j)))
    d1

/-- `Matrix.inverse()`; every embedded call site passes a square matrix, so
the non-square throw is not reachable. -/
def Mat.inverse (M : Mat) : Option Mat :=
  match gjForward M.rows (List.range M.rows) (gjAugment M) with
  | none => none
  | some d =>
    let d2 := ((List.range M.rows).reverse).foldl (fun e i => gjBackStep e i M.rows) d
    some ⟨M.rows, M.rows,
      (List.range M.rows).map (fun i => (List.range M.rows).map (fun j => get2D d2 i (j + M.rows)))⟩

/-- `Matrix.solve(b)`: regularized normal equations
`(AᵀA + 1e-10·I)⁻¹ Aᵀ b`, with the two throw sites of the source. -/
def Mat.solve (A : Mat) (b : List ℚ) : Except JsErr (List ℚ) :=
  if b.length ≠ A.rows then
    .error (.invalid ("Right-hand side vector must match matrix dimensions"))
  else
    let AT := A.transpose
    let ATA := AT.mulMat A
    let ATA2 : Mat := ⟨ATA.rows, ATA.cols,
      (List.range ATA.cols).foldl (fun d i => set2D d i i (get2D d i i + 1 / 10 ^ 10)) ATA.dense⟩
    let ATb := AT.mulVec b
    match ATA2.inverse with
    | none => .error (.singular ("Matrix is still singular after regularization"))
    | some inv => .ok (inv.mulVec ATb)

/-! ### Design matrix (`Cobs.createDesignMatrix`) -/

/-- One row of the design matrix: basis values at `x` scattered to columns
`span - order + j` (the JS bounds guard `0 ≤ col < numBasis` becomes the
range over `numBasis` plus the condition `span ≤ c + order ∧ c ≤ span`). -/
def designRow (x : ℚ) (order : ℕ) (T : List ℚ) : List ℚ :=
  let numBasis := T.length - order - 1
  let span := findSpan x order T
  let basis := evaluateBasis x order span T
  (List.range numBasis).map (fun c =>
    if span ≤ c + order ∧ c ≤ span then basis.getD (c + order - span) 0 else 0)

/-- `Cobs.createDesignMatrix(x, order, knots)`: design rows with every entry
rounded to 12 decimals, then `new Matrix(...)` (which throws when
`numBasis = 0` or `xs = []`; the `numBasis < 0` throw of the source cannot
fire under `ℕ` subtraction and is omitted). -/
def createDesignMatrix (xs : List ℚ) (order : ℕ) (T : List ℚ) : Except JsErr Mat :=
  matOfArray (xs.map (fun xi => (designRow xi order T).map jsRound12))

/-! ### Reading back sparse-built matrices

All four constraint builders of `cobs.ts` push triples row-major through a
predicate filter; `gridTriples` captures that shape and
`get_matOfSparse_gridTriples` reads the resulting dense matrix back. -/

/-- Row-major double loop with a per-entry guard: triple `(v, i, j)` is
pushed iff `f i j = some v`. -/
def gridTriples (m nc : ℕ) (f : ℕ → ℕ → Option ℚ) : List (ℚ × ℕ × ℕ) :=
  (List.range m).flatMap (fun i =>
    (List.range nc).filterMap (fun j => (f i j).map (fun v => (v, i, j))))

def WF2D (d : List (List ℚ)) (r c : ℕ) : Prop :=
  d.length = r ∧ ∀ row ∈ d, row.length = c

theorem WF2D_zeros (r c : ℕ) : WF2D (zeros2D r c) r c := by
  constructor
  · simp [zeros2D]
  · intro row hrow
    simp [zeros2D] at hrow
    simp [hrow.2]

theorem getD_set_self {α : Type} (l : List α) (i : ℕ) (v d : α) (h : i < l.length) :
    (l.set i v).getD i d = v := by
  simp [List.getD_eq_getElem?_getD, List.getElem?_set_self', h]

theorem getD_set_ne {α : Type} (l : List α) (i j : ℕ) (v d : α) (h : i ≠ j) :
    (l.set i v).getD j d = l.getD j d := by
  simp [List.getD_eq_getElem?_getD, List.getElem?_set_ne h]

theorem getD_mem {α : Type} (l : List α) (i : ℕ) (d : α) (h : i < l.length) :
    l.getD i d ∈ l := by
  rw [List.getD_eq_getElem?_getD, List.getElem?_eq_getElem h]
  exact List.getElem_mem h

theorem get2D_zeros (r c i j : ℕ) : get2D (zeros2D r c) i j = 0 := by
  rw [get2D, zeros2D]
  rcases Nat.lt_or_ge i r with hi | hi
  · have h1 : (List.replicate r (List.replicate c (0 : ℚ))).getD i [] = List.replicate c 0 := by
      rw [List.getD_eq_getElem?_getD, List.getElem?_replicate]
      simp [hi]
    rw [h1]
    rcases Nat.lt_or_ge j c with hj | hj
    · rw [List.getD_eq_getElem?_getD, List.getElem?_replicate]
      simp [hj]
    · rw [List.getD_eq_default]
      simpa using hj
  · have h1 : (List.replicate r (List.replicate c (0 : ℚ))).getD i [] = [] := by
      rw [List.getD_eq_default]
      simpa using hi
    rw [h1]
    rfl

theorem WF2D_set2D {d : List (List ℚ)} {r c : ℕ} (h : WF2D d r c) (i j : ℕ) (v : ℚ) :
    WF2D (set2D d i j v) r c := by
  obtain ⟨hlen, hrows⟩ := h
  rcases Nat.lt_or_ge i d.length with hi | hi
  · constructor
    · simp [set2D, hlen]
    · intro row hrow
      rcases List.mem_or_eq_of_mem_set hrow with hmem | rfl
      · exact hrows row hmem
      · rw [List.length_set]
        exact hrows _ (getD_mem _ _ _ hi)
  · rw [set2D, List.set_eq_of_length_le (by omega)]
    exact ⟨hlen, hrows⟩

theorem get2D_set2D_self {d : List (List ℚ)} {r c : ℕ} (h : WF2D d r c) {i j : ℕ}
    (hi : i < r) (hj : j < c) (v : ℚ) : get2D (set2D d i j v) i j = v := by
  obtain ⟨hlen, hrows⟩ := h
  have hid : i < d.length := by omega
  have hrow : (d.getD i []).length = c := hrows _ (getD_mem _ _ _ hid)
  rw [get2D, set2D, getD_set_self _ _ _ _ hid, getD_set_self _ _ _ _ (by omega)]

theorem get2D_set2D_ne (d : List (List ℚ)) {i j i' j' : ℕ} (h : i ≠ i' ∨ j ≠ j') (v : ℚ) :
    get2D (set2D d i j v) i' j' = get2D d i' j' := by
  rcases h with h | h
  · rw [get2D, set2D, getD_set_ne _ _ _ _ _ h]
    rfl
  · rcases eq_or_ne i i' with rfl | hii
    · rcases Nat.lt_or_ge i d.length with hid | hid
      · rw [get2D, set2D, getD_set_self _ _ _ _ hid, getD_set_ne _ _ _ _ _ h]
        rfl
      · rw [set2D, List.set_eq_of_length_le (by omega)]
    · rw [get2D, set2D, getD_set_ne _ _ _ _ _ hii]
      rfl

/-- Folding writes whose keys all avoid `(i, j)` leaves entry `(i, j)`. -/
theorem get2D_fold_of_ne (ts : List (ℚ × ℕ × ℕ)) :
    ∀ (d : List (List ℚ)) (i j : ℕ), (∀ t ∈ ts, t.2.1 ≠ i ∨ t.2.2 ≠ j) →
      get2D (ts.foldl (fun d t => set2D d t.2.1 t.2.2 t.1) d) i j = get2D d i j := by
  induction ts with
  | nil => intro d i j _; rfl
  | cons t rest ih =>
    intro d i j hkeys
    rw [List.foldl_cons, ih _ _ _ (fun u hu => hkeys u (List.mem_cons_of_mem t hu)),
      get2D_set2D_ne _ (hkeys t (List.mem_cons_self t rest)) _]

theorem WF2D_fold (ts : List (ℚ × ℕ × ℕ)) :
    ∀ {d : List (List ℚ)} {r c : ℕ}, WF2D d r c →
      WF2D (ts.foldl (fun d t => set2D d t.2.1 t.2.2 t.1) d) r c := by
  induction ts with
  | nil => intro d r c h; exact h
  | cons t rest ih => intro d r c h; exact ih (WF2D_set2D h _ _ _)

/-- Reading one filtered row of writes (all at row `i`): entry `(i, j)`
becomes `f i j` (or keeps its previous value `0` when filtered out). -/
theorem get2D_rowFold (i r c : ℕ) (f : ℕ → Option ℚ) :
    ∀ (nc : ℕ) (d : List (List ℚ)), WF2D d r c → i < r → ∀ j, j < nc → j < c →
      get2D d i j = 0 →
      get2D (((List.range nc).filterMap (fun b => (f b).map (fun v => (v, i, b)))).foldl
        (fun d t => set2D d t.2.1 t.2.2 t.1) d) i j = (f j).getD 0 := by
  intro nc
  induction nc with
  | zero => intro d _ _ j hj; omega
  | succ nc ih =>
    intro d hwf hi j hj hjc h0
    rw [List.range_succ, List.filterMap_append, List.foldl_append]
    rcases Nat.lt_or_ge j nc with hlt | hge
    · rw [get2D_fold_of_ne]
      · exact ih d hwf hi j hlt hjc h0
      · intro t ht
        simp only [List.mem_filterMap, List.mem_singleton] at ht
        obtain ⟨b, hb, hbt⟩ := ht
        subst hb
        rcases hfb : f b with _ | v <;> rw [hfb] at hbt
        · simp at hbt
        · simp only [Option.map_some', Option.some.injEq] at hbt
          right
          rw [← hbt]
          simpa using by omega
    · have hj' : j = nc := by omega
      subst hj'
      have hbase : get2D (((List.range j).filterMap
          (fun b => (f b).map (fun v => (v, i, b)))).foldl
          (fun d t => set2D d t.2.1 t.2.2 t.1) d) i j = 0 := by
        rw [get2D_fold_of_ne]
        · exact h0
        · intro t ht
          simp only [List.mem_filterMap, List.mem_range] at ht
          obtain ⟨b, hb, hbt⟩ := ht
          rcases hfb : f b with _ | v <;> rw [hfb] at hbt
          · simp at hbt
          · simp only [Option.map_some', Option.some.injEq] at hbt
            right; rw [← hbt]; simpa using by omega
      have hwf2 : WF2D (((List.range j).filterMap
          (fun b => (f b).map (fun v => (v, i, b)))).foldl
          (fun d t => set2D d t.2.1 t.2.2 t.1) d) r c := WF2D_fold _ hwf
      rcases hfj : f j with _ | v
      · simpa [hfj] using hbase
      · simp only [hfj, List.filterMap_cons, List.filterMap_nil, Option.map_some']
        rw [List.foldl_cons, List.foldl_nil]
        rw [get2D_set2D_self hwf2 hi hjc]
        simp

/-- Keys pushed by `gridTriples` lie inside the grid. -/
theorem gridTriples_keys {m nc : ℕ} {f : ℕ → ℕ → Option ℚ} {t : ℚ × ℕ × ℕ}
    (ht : t ∈ gridTriples m nc f) : t.2.1 < m ∧ t.2.2 < nc := by
  simp only [gridTriples, List.mem_flatMap, List.mem_filterMap, List.mem_range] at ht
  obtain ⟨i, hi, j, hj, hjt⟩ := ht
  rcases hf : f i j with _ | v <;> rw [hf] at hjt
  · simp at hjt
  · simp only [Option.map_some', Option.some.injEq] at hjt
    rw [← hjt]
    exact ⟨hi, hj⟩

/-- Main read-back lemma: a `gridTriples`-built sparse matrix holds
`f i j` (default `0`) at every grid point, `0` elsewhere. -/
theorem get_matOfSparse_gridTriples (r c : ℕ) (f : ℕ → ℕ → Option ℚ) :
    ∀ (m : ℕ) (nc : ℕ) (i j : ℕ), i < r → j < c →
      (matOfSparse r c (gridTriples m nc f)).get i j
        = if i < m ∧ j < nc then (f i j).getD 0 else 0 := by
  intro m
  induction m with
  | zero =>
    intro nc i j hi hj
    simp only [Nat.not_lt_zero, false_and, if_false]
    have hnil : gridTriples 0 nc f = [] := by simp [gridTriples]
    rw [Mat.get, matOfSparse, hnil, List.foldl_nil]
    exact get2D_zeros r c i j
  | succ m ih =>
    intro nc i j hi hj
    have hsplit : gridTriples (m + 1) nc f
        = gridTriples m nc f
          ++ (List.range nc).filterMap (fun b => (f m b).map (fun v => (v, m, b))) := by
      rw [gridTriples, List.range_succ, List.flatMap_append]
      simp [gridTriples]
    rw [Mat.get, matOfSparse, hsplit, List.foldl_append]
    rcases eq_or_ne i m with rfl | hne
    · have hbase : get2D ((gridTriples i nc f).foldl
          (fun d t => set2D d t.2.1 t.2.2 t.1) (zeros2D r c)) i j = 0 := by
        rw [get2D_fold_of_ne]
        · exact get2D_zeros r c i j
        · intro t ht
          left
          have := (gridTriples_keys ht).1
          omega
      rcases Nat.lt_or_ge j nc with hjn | hjn
      · rw [get2D_rowFold i r c (f i) nc _ (WF2D_fold _ (WF2D_zeros r c)) hi j hjn hj hbase]
        simp [hjn]
      · rw [get2D_fold_of_ne]
        · rw [hbase]
          have hn : ¬j < nc := by omega
          simp [hn]
        · intro t ht
          simp only [List.mem_filterMap, List.mem_range] at ht
          obtain ⟨b, hb, hbt⟩ := ht
          rcases hfb : f i b with _ | v <;> rw [hfb] at hbt
          · simp at hbt
          · simp only [Option.map_some', Option.some.injEq] at hbt
            right; rw [← hbt]; simpa using by omega
    · rw [get2D_fold_of_ne]
      · have := ih nc i j hi hj
        rw [Mat.get, matOfSparse] at this
        rw [this]
        have : (i < m ∧ j < nc) ↔ (i < m + 1 ∧ j < nc) := by omega
        simp [this]
      · intro t ht
        simp only [List.mem_filterMap, List.mem_range] at ht
        obtain ⟨b, hb, hbt⟩ := ht
        rcases hfb : f m b with _ | v <;> rw [hfb] at hbt
        · simp at hbt
        · simp only [Option.map_some', Option.some.injEq] at hbt
          left; rw [← hbt]; simpa using hne.symm

/-! ### Constraint builders of the fit path (`src/cobs.ts`) -/

/-- `Cobs.generateMonotonicityConstraints(design, increasing)`:
`m = design.numRows - 1` rows; entry `(i, j)` is the first difference
`design[i+1][j] - design[i][j]` (negated when `increasing`), pushed only when
its magnitude exceeds `1e-10`; `b` is `m` zeros.  The JS guard `m <= 0`
becomes `m = 0` under `ℕ` subtraction. -/
def generateMonotonicityConstraints (design : Mat) (increasing : Bool) : Mat × List ℚ :=
  let n_coeffs := design.cols
  let m := design.rows - 1
  if m = 0 then (matOfSparse 0 n_coeffs [], [])
  else
    (matOfSparse m n_coeffs (gridTriples m n_coeffs (fun i j =>
        let diff := design.get (i + 1) j - design.get i j
        if |diff| > tolBuild then some (if increasing then -diff else diff) else none)),
      List.replicate m 0)

/-- `Cobs.generateConvexityConstraints(design, convex)`: `m = numRows - 2`
rows of second differences `design[i+2][j] - 2·design[i+1][j] + design[i][j]`
(negated when `convex`), `b = 0`. -/
def generateConvexityConstraints (design : Mat) (convex : Bool) : Mat × List ℚ :=
  let n_coeffs := design.cols
  let m := design.rows - 2
  if m = 0 then (matOfSparse 0 n_coeffs [], [])
  else
    (matOfSparse m n_coeffs (gridTriples m n_coeffs (fun i j =>
        let s := design.get (i + 2) j - 2 * design.get (i + 1) j + design.get i j
        if |s| > tolBuild then some (if convex then -s else s) else none)),
      List.replicate m 0)

/-- The single row coefficient of `Cobs.generatePeriodicityConstraints`:
`(design[1][j] - design[0][j]) - (design[m-1][j] - design[m-2][j])`. -/
def periodicRowCoeff (design : Mat) (j : ℕ) : ℚ :=
  (design.get 1 j - design.get 0 j)
    - (design.get (design.rows - 1) j - design.get (design.rows - 2) j)

/-- `Cobs.generatePeriodicityConstraints(design)`: one row of
`periodicRowCoeff` values over the columns (entries below `1e-10` dropped),
with `b = [0]`; the row (and `b`) are emitted only when at least one entry
survives (`rows: data.length > 0 ? 1 : 0`), and nothing is emitted when the
design has fewer than two rows. -/
def generatePeriodicityConstraints (design : Mat) : Mat × List ℚ :=
  let n_coeffs := design.cols
  if design.rows < 2 then (matOfSparse 0 n_coeffs [], [])
  else
    let ts := gridTriples 1 n_coeffs (fun _ j =>
      if |periodicRowCoeff design j| > tolBuild then some (periodicRowCoeff design j) else none)
    (matOfSparse (if ts = [] then 0 else 1) n_coeffs ts, if ts = [] then [] else [0])

/-! ### Claim C3: shape of the monotone constraint block -/

/-- C3 counterexample.  In a fit of `x = [0,1,2]` at order 1 (generated knots
`[0,0,1,2,2]`), the monotone-increasing block passed to the LP solver has
`numRows - 1 = 2` rows — not the 100 derivative-grid rows the claim states
(the 100-point grid builder lives in the separate `Constraints` class, which
the fit path never calls). -/
theorem C3_counterexample :
    (createDesignMatrix [0, 1, 2] 1 (generateKnots 1 [0, 1, 2])).toOption.map
        (fun design => (generateMonotonicityConstraints design true).1.rows) = some 2 ∧
      (2 : ℕ) ≠ 100 := by
  constructor
  · decide
  · decide

/-- C3 amended: for every design matrix and direction, the monotone block of
the fit path has `design.numRows - 1` rows, `b` is that many zeros, and entry
`(i, j)` is the consecutive-row difference `design[i+1][j] - design[i][j]`,
negated for the increasing case, zeroed when its magnitude is ≤ `1e-10`. -/
theorem C3_monotone_block (design : Mat) (increasing : Bool) :
    (generateMonotonicityConstraints design increasing).1.rows = design.rows - 1 ∧
    (generateMonotonicityConstraints design increasing).2
      = List.replicate (design.rows - 1) 0 ∧
    ∀ i j, i < design.rows - 1 → j < design.cols →
      (generateMonotonicityConstraints design increasing).1.get i j
        = (if |design.get (i + 1) j - design.get i j| > tolBuild then
            (if increasing then -(design.get (i + 1) j - design.get i j)
             else design.get (i + 1) j - design.get i j)
           else 0) := by
  rcases Nat.eq_zero_or_pos (design.rows - 1) with hm | hm
  · rw [generateMonotonicityConstraints]
    simp only [hm, if_pos rfl]
    refine ⟨rfl, rfl, ?_⟩
    intro i j hi _
    omega
  · have hne0 : ¬(design.rows - 1 = 0) := by omega
    rw [generateMonotonicityConstraints]
    simp only [if_neg hne0]
    refine ⟨by simp [matOfSparse], by simp, ?_⟩
    intro i j hi hj
    rw [get_matOfSparse_gridTriples (design.rows - 1) design.cols _ (design.rows - 1)
      design.cols i j hi hj]
    simp only [hi, hj, and_true, if_true]
    split
    · simp
    · simp

/-- C3 witness: the amended block shape at the 3×3 identity design,
entry `(0,0)`. -/
theorem C3_witness :
    ((0 : ℕ) < 3 - 1) ∧ ((0 : ℕ) < 3) ∧
    (generateMonotonicityConstraints ⟨3, 3, [[1, 0, 0], [0, 1, 0], [0, 0, 1]]⟩ true).1.get 0 0
      = 1 :=
  ⟨by decide, by decide, by
    have h := (C3_monotone_block ⟨3, 3, [[1, 0, 0], [0, 1, 0], [0, 0, 1]]⟩ true).2.2 0 0
      (by decide) (by decide)
    rw [h]
    decide⟩

/-! ### Claim C4: shape of the periodic constraint block -/

/-- C4 counterexample.  In the same order-1 fit of `x = [0,1,2]`, the
periodicity builder of the fit path emits a single inequality row (the
first-difference expression), not the claimed two equality rows, and not
four opposite-sign inequality rows. -/
theorem C4_counterexample :
    (createDesignMatrix [0, 1, 2] 1 (generateKnots 1 [0, 1, 2])).toOption.map
        (fun design => (generatePeriodicityConstraints design).1.rows) = some 1 ∧
      (1 : ℕ) ≠ 2 ∧ (1 : ℕ) ≠ 4 := by
  refine ⟨by decide, by decide, by decide⟩

/-- C4 amended: for every design with at least two rows, the fit-path
periodicity builder emits at most one row; the row exists iff some column
coefficient `(D[1][j]-D[0][j]) - (D[m-1][j]-D[m-2][j])` exceeds `1e-10` in
magnitude, `b` matches the row count with zeros, and entry `(0, j)` is that
coefficient (zeroed below the threshold).  It is a single `≤ 0` inequality,
not a pair of opposite-sign inequalities. -/
theorem C4_periodic_block (design : Mat) (h2 : 2 ≤ design.rows) :
    (generatePeriodicityConstraints design).1.rows ≤ 1 ∧
    ((generatePeriodicityConstraints design).1.rows = 1
      ↔ ∃ j, j < design.cols ∧ |periodicRowCoeff design j| > tolBuild) ∧
    (generatePeriodicityConstraints design).2
      = List.replicate (generatePeriodicityConstraints design).1.rows 0 ∧
    ∀ j, j < design.cols →
      (generatePeriodicityConstraints design).1.get 0 j
        = (if |periodicRowCoeff design j| > tolBuild then periodicRowCoeff design j else 0) := by
  have hnot : ¬design.rows < 2 := by omega
  rw [generatePeriodicityConstraints]
  simp only [if_neg hnot]
  set f : ℕ → ℕ → Option ℚ := fun _ j =>
    if |periodicRowCoeff design j| > tolBuild then some (periodicRowCoeff design j) else none
    with hf
  have hempty : gridTriples 1 design.cols f = []
      ↔ ∀ j, j < design.cols → f 0 j = none := by
    rw [gridTriples]
    rw [show List.range 1 = [0] from rfl]
    simp only [List.flatMap_cons, List.flatMap_nil, List.append_nil]
    rw [List.filterMap_eq_nil_iff]
    constructor
    · intro h j hj
      have := h j (by simpa using hj)
      simpa using this
    · intro h j hj
      have := h j (by simpa using hj)
      simp [this]
  rcases eq_or_ne (gridTriples 1 design.cols f) [] with hemp | hne
  · simp only [hemp, if_pos rfl]
    refine ⟨by simp [matOfSparse], ?_, by simp [matOfSparse], ?_⟩
    · constructor
      · intro h
        simp [matOfSparse] at h
      · rintro ⟨j, hj, habs⟩
        have hz := (hempty.mp hemp) j hj
        rw [hf] at hz
        simp only [if_pos habs] at hz
        cases hz
    · intro j hj
      have hz := (hempty.mp hemp) j hj
      rw [hf] at hz
      simp only at hz
      have hle : ¬|periodicRowCoeff design j| > tolBuild := by
        intro habs
        rw [if_pos habs] at hz
        cases hz
      rw [if_neg hle]
      simp [Mat.get, matOfSparse, get2D_zeros]
  · simp only [if_neg hne]
    refine ⟨by simp [matOfSparse], ?_, by simp [matOfSparse], ?_⟩
    · constructor
      · intro _
        by_contra hno
        push_neg at hno
        apply hne
        rw [hempty]
        intro j hj
        rw [hf]
        simp only
        rw [if_neg (by exact not_lt.mpr (hno j hj))]
      · intro _
        simp [matOfSparse]
    · intro j hj
      rw [get_matOfSparse_gridTriples 1 design.cols f 1 design.cols 0 j (by omega) hj]
      simp only [show (0 : ℕ) < 1 from by omega, hj, and_true, if_true]
      rw [hf]
      simp only
      split
      · simp
      · simp

/-- C4 witness: the amended periodic-block shape at the 3×3 identity design,
column 0 (row coefficient `-1`). -/
theorem C4_witness :
    (2 : ℕ) ≤ 3 ∧ ((0 : ℕ) < 3) ∧
    (generatePeriodicityConstraints ⟨3, 3, [[1, 0, 0], [0, 1, 0], [0, 0, 1]]⟩).1.get 0 0
      = -1 :=
  ⟨by decide, by decide, by
    have h := (C4_periodic_block ⟨3, 3, [[1, 0, 0], [0, 1, 0], [0, 0, 1]]⟩ (by decide)).2.2.2 0
      (by decide)
    rw [h]
    decide⟩

/-! ### IEEE-flavoured numbers, for claim C7

`BSpline.computeBasisFunctions` (unnamed source file, `src/unnamed/part_000`)
runs the de Boor recurrence but divides WITHOUT the zero-denominator guard of
`Cobs.evaluateBasis`.  To observe the difference faithfully, `JSNum` extends
the exact rationals with the three non-finite IEEE double values; arithmetic
on finite values is exact and the non-finite rules mirror IEEE-754
(`0·∞ = NaN`, `q/0 = ±∞` for `q ≠ 0`, `0/0 = NaN`, `∞-∞ = NaN`).  Negative
zero is not modelled: every finite value here is an exact rational, and the
denominators of interest are exact `+0`. -/

inductive JSNum where
  | num (q : ℚ)
  | inf
  | ninf
  | nan
deriving DecidableEq

def JSNum.isNum : JSNum → Bool
  | num _ => true
  | _ => false

def JSNum.add : JSNum → JSNum → JSNum
  | num a, num b => num (a + b)
  | num _, inf => inf
  | num _, ninf => ninf
  | inf, num _ => inf
  | ninf, num _ => ninf
  | inf, inf => inf
  | ninf, ninf => ninf
  | inf, ninf => nan
  | ninf, inf => nan
  | _, _ => nan

def JSNum.mul : JSNum → JSNum → JSNum
  | num a, num b => num (a * b)
  | num a, inf => if a = 0 then nan else if 0 < a then inf else ninf
  | num a, ninf => if a = 0 then nan else if 0 < a then ninf else inf
  | inf, num b => if b = 0 then nan else if 0 < b then inf else ninf
  | ninf, num b => if b = 0 then nan else if 0 < b then ninf else inf
  | inf, inf => inf
  | inf, ninf => ninf
  | ninf, inf => ninf
  | ninf, ninf => inf
  | _, _ => nan

def JSNum.div : JSNum → JSNum → JSNum
  | num a, num b =>
    if b = 0 then (if a = 0 then nan else if 0 < a then inf else ninf) else num (a / b)
  | num _, inf => num 0
  | num _, ninf => num 0
  | inf, num b => if 0 ≤ b then inf else ninf
  | ninf, num b => if 0 ≤ b then ninf else inf
  | _, _ => nan

/-- Inner pass of `BSpline.computeBasisFunctions`: identical to `deBoorGo`
except that `temp = N[r] / (right[r+1] + left[j-r])` is UNGUARDED. -/
def computeBasisFunctionsGo (lt rt : ℕ → JSNum) (j : ℕ) :
    ℕ → JSNum → List JSNum → List JSNum
  | _, saved, [] => [saved]
  | r, saved, b :: rest =>
    let temp := b.div ((rt (r + 1)).add (lt (j - r)))
    (saved.add ((rt (r + 1)).mul temp))
      :: computeBasisFunctionsGo lt rt j (r + 1) ((lt (j - r)).mul temp) rest

/-- `BSpline.computeBasisFunctions(span, x)` over `JSNum` (`left[j] =
x - knots[span+1-j]` and `right[j] = knots[span+j] - x` are finite exact
differences). -/
def computeBasisFunctions (T : List ℚ) (degree span : ℕ) (x : ℚ) : List JSNum :=
  (List.range' 1 degree).foldl
    (fun N j =>
      computeBasisFunctionsGo (fun i => JSNum.num (x - knotAt T (span + 1 - i)))
        (fun i => JSNum.num (knotAt T (span + i) - x)) j 0 (JSNum.num 0) N)
    [JSNum.num 1]

/-- Inner pass of `Cobs.evaluateBasis` over `JSNum`: the division is guarded
by `if (den !== 0)` (`temp` stays `0` on a zero denominator).  `NaN !== 0`
is true in JS, matching the structural disequality test here. -/
def evaluateBasisJSGo (lt rt : ℕ → JSNum) (j : ℕ) :
    ℕ → JSNum → List JSNum → List JSNum
  | _, saved, [] => [saved]
  | r, saved, b :: rest =>
    let den := (rt (r + 1)).add (lt (j - r))
    let temp := if den = JSNum.num 0 then JSNum.num 0 else b.div den
    (saved.add ((rt (r + 1)).mul temp))
      :: evaluateBasisJSGo lt rt j (r + 1) ((lt (j - r)).mul temp) rest

/-- `Cobs.evaluateBasis` over `JSNum`. -/
def evaluateBasisJS (T : List ℚ) (order span : ℕ) (x : ℚ) : List JSNum :=
  (List.range' 1 order).foldl
    (fun basis j =>
      evaluateBasisJSGo (fun i => JSNum.num (x - knotAt T (span + 1 - i)))
        (fun i => JSNum.num (knotAt T (span + i) - x)) j 0 (JSNum.num 0) basis)
    [JSNum.num 1]

/-! ### Claim C7: guarding of the de Boor division -/

/-- C7 counterexample.  On the non-decreasing (constant) knot vector
`[5,5,5,5]` with degree 1, at `x = 5` (span as computed by `findSpan`),
the UNGUARDED division of `BSpline.computeBasisFunctions` hits `1/0 = ∞`
and then `0·∞ = NaN`: the basis comes back as `[NaN, NaN]`, falsifying
"every division ... is guarded ... so basis evaluation never produces NaN
for any x and any non-decreasing knot vector". -/
theorem C7_counterexample :
    List.Sorted (· ≤ ·) ([5, 5, 5, 5] : List ℚ) ∧
    computeBasisFunctions [5, 5, 5, 5] 1 (findSpan 5 1 [5, 5, 5, 5]) 5
      = [JSNum.nan, JSNum.nan] := by
  constructor
  · decide
  · decide

theorem JSNum.isNum_exists {a : JSNum} (h : a.isNum = true) : ∃ q, a = JSNum.num q := by
  cases a
  · exact ⟨_, rfl⟩
  all_goals simp [JSNum.isNum] at h

theorem evaluateBasisJSGo_finite (lt rt : ℕ → JSNum) (hlt : ∀ i, (lt i).isNum = true)
    (hrt : ∀ i, (rt i).isNum = true) (j : ℕ) :
    ∀ (prev : List JSNum) (r : ℕ) (saved : JSNum), saved.isNum = true →
      (∀ b ∈ prev, b.isNum = true) →
      ∀ b ∈ evaluateBasisJSGo lt rt j r saved prev, b.isNum = true := by
  intro prev
  induction prev with
  | nil =>
    intro r saved hsaved _ b hb
    simp only [evaluateBasisJSGo, List.mem_singleton] at hb
    subst hb
    exact hsaved
  | cons hd rest ih =>
    intro r saved hsaved hprev b hb
    obtain ⟨lq, hlq⟩ := JSNum.isNum_exists (hlt (j - r))
    obtain ⟨rq, hrq⟩ := JSNum.isNum_exists (hrt (r + 1))
    obtain ⟨hq, hhq⟩ := JSNum.isNum_exists (hprev hd (List.mem_cons_self hd rest))
    obtain ⟨sq, hsq⟩ := JSNum.isNum_exists hsaved
    simp only [evaluateBasisJSGo, List.mem_cons] at hb
    rcases hb with rfl | hb
    · rw [hlq, hrq, hhq, hsq]
      by_cases hzero : rq + lq = 0 <;>
        simp [JSNum.add, JSNum.mul, JSNum.div, JSNum.isNum, hzero]
    · apply ih (r + 1) _ _ (fun u hu => hprev u (List.mem_cons_of_mem hd hu)) b hb
      rw [hlq, hrq, hhq]
      by_cases hzero : rq + lq = 0 <;>
        simp [JSNum.add, JSNum.mul, JSNum.div, JSNum.isNum, hzero]

/-- C7 amended: in `Cobs.evaluateBasis` the division IS guarded, and that
recurrence never produces NaN (or any non-finite value) from coincident
knots — for every knot vector, span, order and x.  The unguarded
`BSpline.computeBasisFunctions` recurrence is NOT guarded and can produce
NaN (counterexample above). -/
theorem C7_guarded_no_nan (T : List ℚ) (order span : ℕ) (x : ℚ) :
    (evaluateBasisJS T order span x).all JSNum.isNum = true := by
  rw [List.all_eq_true]
  rw [evaluateBasisJS]
  have hstep : ∀ (js : List ℕ) (start : List JSNum), (∀ b ∈ start, b.isNum = true) →
      ∀ b ∈ js.foldl (fun basis j =>
        evaluateBasisJSGo (fun i => JSNum.num (x - knotAt T (span + 1 - i)))
          (fun i => JSNum.num (knotAt T (span + i) - x)) j 0 (JSNum.num 0) basis) start,
        b.isNum = true := by
    intro js
    induction js with
    | nil => intro start h b hb; exact h b hb
    | cons j rest ih =>
      intro start h b hb
      rw [List.foldl_cons] at hb
      exact ih _ (fun u hu => evaluateBasisJSGo_finite _ _ (by intro i; rfl) (by intro i; rfl) j
        start 0 (JSNum.num 0) rfl h u hu) b hb
  intro b hb
  exact hstep (List.range' 1 order) [JSNum.num 1] (by simp [JSNum.isNum]) b hb

/-! ### Revised simplex LP solver (`src/solver.ts`)

Basis entries are `ℤ`: `-1` stands for the JS `undefined` obtained from
`pop()` on an exhausted `nonbasis` (and for the untouched initial `-1`).
Reads of `c[j]` / `A[i][j]` at such an index yield `undefined`/NaN in JS;
here they default to `0` and are unreachable in any iteration that
proceeds past the basis inverse: an invalid basis entry leaves a zero
column in `B`, so `getBasisInverse` returns `null` first (the
`nonZeroCount < m` pre-check or a sub-`1e-10` pivot), and the solver
answers with the zero sentinel before any such read. -/

/-- `LPSolver.findBasisColumn(row)`: first column that is a unit vector in
`row` (within `1e-12`). -/
def findBasisColumn (A : Mat) (m n row : ℕ) : Option ℕ :=
  (List.range n).find? (fun j =>
    (List.range m).all (fun i =>
      if i = row then ¬|A.get i j - 1| > lpTol else ¬|A.get i j| > lpTol))

/-- The basis-initialization loop: a unit column if one exists, otherwise
the popped last non-basis index (or `-1` when even that is exhausted).
`splice(indexOf(col), 1)` removes the first occurrence of `col`; when `col`
was already consumed, `indexOf` yields `-1` and `splice(-1, 1)` removes the
LAST element instead — mirrored by the membership test below. -/
def lpInitBasis (A : Mat) (m n : ℕ) : List ℤ × List ℤ :=
  (List.range m).foldl
    (fun (st : List ℤ × List ℤ) i =>
      match findBasisColumn A m n i with
      | some col =>
        if (col : ℤ) ∈ st.2 then (st.1 ++ [(col : ℤ)], st.2.erase (col : ℤ))
        else (st.1 ++ [(col : ℤ)], st.2.dropLast)
      | none =>
        match st.2.getLast? with
        | some last => (st.1 ++ [last], st.2.dropLast)
        | none => (st.1 ++ [-1], st.2))
    ([], (List.range n).map (fun j => (j : ℤ)))

/-- `LPSolver.getBasisInverse(basis)`: assemble `B` from the valid basis
columns, writing (and counting) only entries above `1e-12`; `null` when
fewer than `m` entries were written, otherwise Gauss–Jordan. -/
def lpGetBasisInverse (A : Mat) (m n : ℕ) (basis : List ℤ) : Option Mat :=
  let count := ((List.range m).map (fun i =>
    let bi := basis.getD i (-1)
    if 0 ≤ bi ∧ bi < (n : ℤ) then
      ((List.range m).filter (fun j => |A.get j bi.toNat| > lpTol)).length
    else 0)).sum
  let Bd := (List.range m).foldl
    (fun d i =>
      let bi := basis.getD i (-1)
      if 0 ≤ bi ∧ bi < (n : ℤ) then
        (List.range m).foldl
          (fun d2 j =>
            if |A.get j bi.toNat| > lpTol then set2D d2 j i (A.get j bi.toNat) else d2) d
      else d)
    (zeros2D m m)
  if count < m then none else Mat.inverse ⟨m, m, Bd⟩

/-- `LPSolver.getColumn(j)` (the `ℤ` index is always a valid column index at
every reachable call). -/
def lpColumn (A : Mat) (m : ℕ) (j : ℤ) : List ℚ :=
  (List.range m).map (fun i => if 0 ≤ j then A.get i j.toNat else 0)

/-- One-pass entering-variable selection: first `j ∈ nonbasis` attaining the
strictly smallest reduced cost below `-1e-12` (`-1` when none). -/
def lpEntering (A : Mat) (c : List ℚ) (m n : ℕ) (y : List ℚ) (nonbasis : List ℤ) : ℚ × ℤ :=
  nonbasis.foldl
    (fun st j =>
      let rc := (if 0 ≤ j ∧ j < (n : ℤ) then c.getD j.toNat 0 else 0)
        - dotProduct y (lpColumn A m j)
      if rc < st.1 then (rc, j) else st)
    (-lpTol, -1)

/-- Ratio test: first row minimizing `xB[i]/d[i]` over `d[i] > 1e-12`. -/
def lpLeaving (m : ℕ) (xB d : List ℚ) : Option (ℚ × ℕ) :=
  (List.range m).foldl
    (fun st i =>
      if lpTol < d.getD i 0 then
        let ratio := xB.getD i 0 / d.getD i 0
        match st with
        | none => some (ratio, i)
        | some st' => if ratio < st'.1 then some (ratio, i) else st
      else st)
    none

/-- The main simplex loop of `LPSolver.solve`, fuel = remaining iterations
(`maxIter = 1000`).  Exits: singular/degenerate basis, infeasible `x_B`,
optimality (scatter of `max(0, x_B)`), unboundedness, or fuel exhaustion —
all but optimality return the all-zeros sentinel. -/
def lpLoop (A : Mat) (b c : List ℚ) (m n : ℕ) : ℕ → List ℤ → List ℤ → List ℚ
  | 0, _, _ => List.replicate n 0
  | fuel + 1, basis, nonbasis =>
    match lpGetBasisInverse A m n basis with
    | none => List.replicate n 0
    | some Binv =>
      let xB := Binv.mulVec b
      if ¬xB.all (fun v => -lpTol ≤ v) then List.replicate n 0
      else
        let cB := basis.map (fun j => if 0 ≤ j ∧ j < (n : ℤ) then c.getD j.toNat 0 else 0)
        let y := vecMulMat cB Binv
        let ent := lpEntering A c m n y nonbasis
        if ent.2 = -1 then
          (List.range m).foldl
            (fun x i =>
              let bi := basis.getD i (-1)
              if 0 ≤ bi ∧ bi < (n : ℤ) then x.set bi.toNat (max 0 (xB.getD i 0)) else x)
            (List.replicate n 0)
        else
          let d := Binv.mulVec (lpColumn A m ent.2)
          match lpLeaving m xB d with
          | none => List.replicate n 0
          | some lv =>
            let temp := basis.getD lv.2 (-1)
            lpLoop A b c m n fuel (basis.set lv.2 ent.2)
              (nonbasis.set (nonbasis.indexOf ent.2) temp)

/-- `LPSolver.solve()`.  For an empty constraint matrix (`m = 0`) the first
iteration calls `Matrix.zeros(0, 0)`, whose 2-D-array constructor throws
`Invalid matrix data: empty or malformed array`; that throw is hoisted here
to the entry of `solve`, which otherwise runs the fueled loop. -/
def lpSolve (A : Mat) (b c : List ℚ) : Except JsErr (List ℚ) :=
  if A.rows = 0 then .error (.invalid ("Invalid matrix data: empty or malformed array"))
  else
    let st := lpInitBasis A A.rows A.cols
    .ok (lpLoop A b c A.rows A.cols 1000 st.1 st.2)

/-! ### Claim C8: totality of the LP solver -/

/-- C8 counterexample.  The claim quantifies over every `p × N` constraint
matrix; for `p = 0` (constructible through the sparse interface, as the
constraint assembly does) `solve` throws from `Matrix.zeros(0, 0)` instead
of returning an `N`-vector. -/
theorem C8_counterexample :
    lpSolve (matOfSparse 0 2 []) [] [1, 1]
      = .error (.invalid ("Invalid matrix data: empty or malformed array")) := rfl

theorem lpScatter_length (basis : List ℤ) (xB : List ℚ) (n : ℕ) (l : List ℕ) :
    ∀ x : List ℚ,
      (l.foldl (fun x i =>
        let bi := basis.getD i (-1)
        if 0 ≤ bi ∧ bi < (n : ℤ) then x.set bi.toNat (max 0 (xB.getD i 0)) else x) x).length
      = x.length := by
  induction l with
  | nil => intro x; rfl
  | cons i rest ih =>
    intro x
    rw [List.foldl_cons, ih]
    dsimp only
    split
    · rw [List.length_set]
    · rfl

theorem lpLoop_length (A : Mat) (b c : List ℚ) (m n : ℕ) :
    ∀ (fuel : ℕ) (basis nonbasis : List ℤ),
      (lpLoop A b c m n fuel basis nonbasis).length = n := by
  intro fuel
  induction fuel with
  | zero => intro basis nonbasis; simp [lpLoop]
  | succ fuel ih =>
    intro basis nonbasis
    rw [lpLoop]
    rcases lpGetBasisInverse A m n basis with _ | Binv
    · simp
    · dsimp only
      split
      · simp
      · split
        · rw [lpScatter_length]
          simp
        · rcases lpLeaving m (Binv.mulVec b)
            (Binv.mulVec (lpColumn A m (lpEntering A c m n
              (vecMulMat (basis.map (fun j =>
                if 0 ≤ j ∧ j < (n : ℤ) then c.getD j.toNat 0 else 0)) Binv) nonbasis).2)) with
            _ | lv
          · simp
          · simp [ih]

/-- C8 amended: for every constraint matrix with at least one row (and a
matching right-hand side), `solve` is total: it returns an `N`-vector
(`N = A.cols`) on every path — infeasibility, unboundedness, a singular
basis and iteration-limit exhaustion all return the all-zeros sentinel
rather than raising.  Only the empty matrix `p = 0` throws
(counterexample above). -/
theorem C8_lpSolve_total (A : Mat) (b c : List ℚ) (hm : 1 ≤ A.rows)
    (hb : b.length = A.rows) :
    ∃ v, lpSolve A b c = .ok v ∧ v.length = A.cols := by
  refine ⟨lpLoop A b c A.rows A.cols 1000 (lpInitBasis A A.rows A.cols).1
    (lpInitBasis A A.rows A.cols).2, ?_, ?_⟩
  · rw [lpSolve, if_neg (by omega)]
  · exact lpLoop_length A b c A.rows A.cols 1000 _ _

/-- C8 witness: totality at the concrete system `A = [[1]]`, `b = [1]`,
`c = [1]`. -/
theorem C8_witness :
    1 ≤ (Mat.mk 1 1 [[1]]).rows ∧ ([1] : List ℚ).length = (Mat.mk 1 1 [[1]]).rows ∧
    ∃ v, lpSolve ⟨1, 1, [[1]]⟩ [1] [1] = .ok v ∧ v.length = (Mat.mk 1 1 [[1]]).cols :=
  ⟨by decide, by decide, C8_lpSolve_total ⟨1, 1, [[1]]⟩ [1] [1] (by decide) (by decide)⟩

/-! ### Unreachability of the undefined-index defaults

The solver embedding reads `c[basis[i]]`, scatters into `x[basis[i]]` and
pivots `basis[leavingRow]` into `nonbasis` only in iterations that got past
`getBasisInverse`.  The theorems below justify the `0`/`-1` defaults used
for JS `undefined`: a basis containing ANY invalid entry (the `-1` of a
`pop()` on an exhausted `nonbasis`, or an out-of-range index) leaves an
all-zero column in `B`; Gauss–Jordan necessarily rejects a matrix with an
all-zero column, so such an iteration returns the zero sentinel before any
defaulted read can influence the result. -/

theorem getD_append_left {α : Type} (l₁ l₂ : List α) (i : ℕ) (d : α) (h : i < l₁.length) :
    (l₁ ++ l₂).getD i d = l₁.getD i d := by
  rw [List.getD_eq_getElem?_getD, List.getD_eq_getElem?_getD, List.getElem?_append]
  simp [h]

theorem getD_append_right {α : Type} (l₁ l₂ : List α) (i : ℕ) (d : α) (h : l₁.length ≤ i) :
    (l₁ ++ l₂).getD i d = l₂.getD (i - l₁.length) d := by
  rw [List.getD_eq_getElem?_getD, List.getD_eq_getElem?_getD, List.getElem?_append]
  simp [Nat.not_lt.mpr h]

theorem getD_drop {α : Type} (l : List α) (n i : ℕ) (d : α) :
    (l.drop n).getD i d = l.getD (n + i) d := by
  rw [List.getD_eq_getElem?_getD, List.getD_eq_getElem?_getD, List.getElem?_drop]

theorem getD_take {α : Type} (l : List α) (n i : ℕ) (d : α) (h : i < n) :
    (l.take n).getD i d = l.getD i d := by
  rw [List.getD_eq_getElem?_getD, List.getD_eq_getElem?_getD, List.getElem?_take_of_lt h]

theorem getD_map_range {α : Type} (m c : ℕ) (f : ℕ → α) (d : α) (hc : c < m) :
    ((List.range m).map f).getD c d = f c := by
  rw [List.getD_eq_getElem?_getD, List.getElem?_map, List.getElem?_range hc]
  rfl

theorem getD_map_range_ge {α : Type} (m c : ℕ) (f : ℕ → α) (d : α) (hc : m ≤ c) :
    ((List.range m).map f).getD c d = d := by
  rw [List.getD_eq_getElem?_getD, List.getElem?_map]
  rw [List.getElem?_eq_none (by simpa using hc)]
  rfl

/-- Column `c` of a dense payload is identically zero (out-of-range reads
default to zero as well). -/
def ZeroCol (d : List (List ℚ)) (c : ℕ) : Prop := ∀ q, get2D d q c = 0

theorem WF2D_gjAugment (M : Mat) : WF2D (gjAugment M) M.rows (2 * M.rows) := by
  constructor
  · simp [gjAugment]
  · intro row hrow
    simp only [gjAugment, List.mem_map, List.mem_range] at hrow
    obtain ⟨i, _, rfl⟩ := hrow
    simp
    omega

theorem ZeroCol_gjAugment (M : Mat) (c : ℕ) (hc : c < M.rows)
    (hz : ∀ j, M.get j c = 0) : ZeroCol (gjAugment M) c := by
  intro q
  rw [get2D, gjAugment]
  rcases Nat.lt_or_ge q M.rows with hq | hq
  · rw [getD_map_range _ _ _ _ hq,
      getD_append_left _ _ _ _ (by simpa using hc),
      getD_map_range _ _ _ _ hc]
    exact hz q
  · rw [getD_map_range_ge _ _ _ _ hq]
    rfl

theorem gjFindPivot_bounds (aug : List (List ℚ)) (i n : ℕ) (hi : i < n) :
    i ≤ gjFindPivot aug i n ∧ gjFindPivot aug i n < n := by
  rw [gjFindPivot]
  have h : ∀ (l : List ℕ) (init : ℕ), (∀ x ∈ l, i ≤ x ∧ x < n) → i ≤ init → init < n →
      i ≤ l.foldl (fun best k => if |get2D aug k i| > |get2D aug best i| then k else best) init ∧
      l.foldl (fun best k => if |get2D aug k i| > |get2D aug best i| then k else best) init < n := by
    intro l
    induction l with
    | nil => intro init _ h1 h2; exact ⟨h1, h2⟩
    | cons k rest ih =>
      intro init hl h1 h2
      rw [List.foldl_cons]
      split
      · exact ih k (fun x hx => hl x (List.mem_cons_of_mem _ hx))
          (hl k (List.mem_cons_self _ _)).1 (hl k (List.mem_cons_self _ _)).2
      · exact ih init (fun x hx => hl x (List.mem_cons_of_mem _ hx)) h1 h2
  apply h
  · intro x hx
    rw [List.mem_range'_1] at hx
    omega
  · exact le_rfl
  · exact hi

theorem WF2D_gjSwapFrom {aug : List (List ℚ)} {n : ℕ} (i p : ℕ)
    (hw : WF2D aug n (2 * n)) (hi : i < n) (hp : p < n) :
    WF2D (gjSwapFrom aug i p) n (2 * n) := by
  rw [gjSwapFrom]
  split
  · exact hw
  · obtain ⟨hlen, hrows⟩ := hw
    dsimp only
    have hri : (aug.getD i []).length = 2 * n := hrows _ (getD_mem _ _ _ (by omega))
    have hrp : (aug.getD p []).length = 2 * n := hrows _ (getD_mem _ _ _ (by omega))
    constructor
    · simpa using hlen
    · intro row hrow
      rcases List.mem_or_eq_of_mem_set hrow with hrow | rfl
      · rcases List.mem_or_eq_of_mem_set hrow with hrow | rfl
        · exact hrows row hrow
        · rw [List.length_append, List.length_take, List.length_drop, hri, hrp]
          omega
      · rw [List.length_append, List.length_take, List.length_drop, hri, hrp]
        omega

theorem ZeroCol_gjSwapFrom {aug : List (List ℚ)} {n : ℕ} (i p c : ℕ)
    (hw : WF2D aug n (2 * n)) (hi : i < n) (hp : p < n)
    (hz : ZeroCol aug c) : ZeroCol (gjSwapFrom aug i p) c := by
  rw [gjSwapFrom]
  split
  · exact hz
  · dsimp only
    obtain ⟨hlen, hrows⟩ := hw
    have hri : (aug.getD i []).length = 2 * n := hrows _ (getD_mem _ _ _ (by omega))
    have hrp : (aug.getD p []).length = 2 * n := hrows _ (getD_mem _ _ _ (by omega))
    have hmix : ∀ r₁ r₂ : List ℚ, r₁.length = 2 * n → r₂.length = 2 * n →
        (∀ q, get2D aug q c = 0) → r₁ = aug.getD i [] ∨ r₁ = aug.getD p [] →
        r₂ = aug.getD i [] ∨ r₂ = aug.getD p [] →
        (r₁.take i ++ r₂.drop i).getD c 0 = 0 := by
      intro r₁ r₂ h₁ h₂ hzz hr₁ hr₂
      rcases Nat.lt_or_ge c i with hci | hci
      · rw [getD_append_left _ _ _ _ (by rw [List.length_take]; omega),
          getD_take _ _ _ _ hci]
        rcases hr₁ with rfl | rfl
        · exact hzz i
        · exact hzz p
      · rcases Nat.lt_or_ge c (2 * n) with hc2 | hc2
        · rw [getD_append_right _ _ _ _ (by rw [List.length_take]; omega)]
          rw [List.length_take, h₁, min_eq_left (by omega), getD_drop,
            show i + (c - i) = c by omega]
          rcases hr₂ with rfl | rfl
          · exact hzz i
          · exact hzz p
        · rw [List.getD_eq_default]
          rw [List.length_append, List.length_take, List.length_drop, h₁, h₂]
          omega
    intro q
    rw [get2D]
    rcases eq_or_ne q p with rfl | hqp
    · rw [getD_set_self _ _ _ _ (by rw [List.length_set, hlen]; exact hp)]
      exact hmix _ _ hrp hri hz (Or.inr rfl) (Or.inl rfl)
    · rw [getD_set_ne _ _ _ _ _ (Ne.symm hqp)]
      rcases eq_or_ne q i with rfl | hqi
      · rw [getD_set_self _ _ _ _ (by rw [hlen]; exact hi)]
        exact hmix _ _ hri hrp hz (Or.inl rfl) (Or.inr rfl)
      · rw [getD_set_ne _ _ _ _ _ (Ne.symm hqi)]
        exact hz q

theorem WF2D_gjElimBelow_shape (i n : ℕ) {aug : List (List ℚ)} (hw : WF2D aug n (2 * n)) :
    WF2D (gjElimBelow aug i n) n (2 * n) := by
  rw [gjElimBelow]
  have h : ∀ (l : List ℕ) (d : List (List ℚ)), WF2D d n (2 * n) →
      WF2D (l.foldl (fun d k =>
        d.set k ((List.range (2 * n)).map (fun j =>
          if j < i then get2D d k j
          else if j = i then 0
          else get2D d k j + -(get2D d k i) / get2D d i i * get2D d i j))) d) n (2 * n) := by
    intro l
    induction l with
    | nil => intro d hd; exact hd
    | cons k rest ih =>
      intro d hd
      rw [List.foldl_cons]
      apply ih
      obtain ⟨hlen, hrows⟩ := hd
      constructor
      · simpa using hlen
      · intro row hrow
        rcases List.mem_or_eq_of_mem_set hrow with hrow | rfl
        · exact hrows row hrow
        · simp
  exact h _ aug hw

theorem ZeroCol_gjElimBelow {aug : List (List ℚ)} {n : ℕ} (i c : ℕ) (hc : c < 2 * n)
    (hz : ZeroCol aug c) : ZeroCol (gjElimBelow aug i n) c := by
  rw [gjElimBelow]
  have h : ∀ (l : List ℕ) (d : List (List ℚ)), ZeroCol d c →
      ZeroCol (l.foldl (fun d k =>
        d.set k ((List.range (2 * n)).map (fun j =>
          if j < i then get2D d k j
          else if j = i then 0
          else get2D d k j + -(get2D d k i) / get2D d i i * get2D d i j))) d) c := by
    intro l
    induction l with
    | nil => intro d hd; exact hd
    | cons k rest ih =>
      intro d hd
      rw [List.foldl_cons]
      apply ih
      intro q
      rcases Nat.lt_or_ge k d.length with hk | hk
      · rw [get2D]
        rcases eq_or_ne q k with rfl | hqk
        · rw [getD_set_self _ _ _ _ hk, getD_map_range _ _ _ _ hc]
          split
          · exact hd q
          · split
            · rfl
            · rw [show get2D d q c = 0 from hd q, show get2D d i c = 0 from hd i]
              ring
        · rw [getD_set_ne _ _ _ _ _ (Ne.symm hqk)]
          exact hd q
      · rw [get2D, List.set_eq_of_length_le hk]
        exact hd q
  exact h _ aug hz

theorem gjForward_none (n c : ℕ) (hc : c < n) :
    ∀ (l : List ℕ), (∀ x ∈ l, x < n) → c ∈ l →
      ∀ aug, WF2D aug n (2 * n) → ZeroCol aug c → gjForward n l aug = none := by
  intro l
  induction l with
  | nil => intro _ hmem; cases hmem
  | cons i rest ih =>
    intro hlt hmem aug hw hz
    rw [gjForward]
    rcases eq_or_ne i c with rfl | hne
    · have hpz : |get2D aug (gjFindPivot aug i n) i| < 1 / 10 ^ 10 := by
        rw [show get2D aug (gjFindPivot aug i n) i = 0 from hz _]
        norm_num
      rw [if_pos hpz]
    · split
      · rfl
      · have hi : i < n := hlt i (List.mem_cons_self _ _)
        have hp := gjFindPivot_bounds aug i n hi
        apply ih (fun x hx => hlt x (List.mem_cons_of_mem _ hx))
          (by rcases List.mem_cons.mp hmem with rfl | h; exact absurd rfl hne.symm; exact h)
        · exact WF2D_gjElimBelow_shape i n (WF2D_gjSwapFrom i _ hw hi hp.2)
        · exact ZeroCol_gjElimBelow i c (by omega) (ZeroCol_gjSwapFrom i _ c hw hi hp.2 hz)

/-- Gauss–Jordan necessarily rejects a square matrix with an all-zero
column: when elimination reaches that column every candidate pivot is `0`. -/
theorem inverse_none_of_zero_col (M : Mat) (c : ℕ) (hc : c < M.rows)
    (hz : ∀ j, M.get j c = 0) : M.inverse = none := by
  rw [Mat.inverse]
  rw [gjForward_none M.rows c hc (List.range M.rows) (by simp) (List.mem_range.mpr hc)
    (gjAugment M) (WF2D_gjAugment M) (ZeroCol_gjAugment M c hc hz)]

/-- Any invalid basis entry (`-1` from an exhausted `pop()`, or an
out-of-range column index) makes `getBasisInverse` return `null`: its
column of `B` is never written, and the inverse of a zero-column matrix
fails. -/
theorem lpGetBasisInverse_none_of_invalid (A : Mat) (m n : ℕ) (basis : List ℤ) (i : ℕ)
    (him : i < m) (hinv : ¬(0 ≤ basis.getD i (-1) ∧ basis.getD i (-1) < (n : ℤ))) :
    lpGetBasisInverse A m n basis = none := by
  rw [lpGetBasisInverse]
  dsimp only
  split
  · rfl
  · apply inverse_none_of_zero_col _ i him
    intro j
    show get2D _ j i = 0
    have h : ∀ (l : List ℕ), (∀ x ∈ l, x = i → ¬(0 ≤ basis.getD x (-1)
          ∧ basis.getD x (-1) < (n : ℤ))) →
        ∀ d, (∀ q, get2D d q i = 0) →
        ∀ q, get2D (l.foldl (fun d i' =>
          if 0 ≤ basis.getD i' (-1) ∧ basis.getD i' (-1) < (n : ℤ) then
            (List.range m).foldl
              (fun d2 j =>
                if |A.get j (basis.getD i' (-1)).toNat| > lpTol then
                  set2D d2 j i' (A.get j (basis.getD i' (-1)).toNat)
                else d2) d
          else d) d) q i = 0 := by
      intro l
      induction l with
      | nil => intro _ d hd q; exact hd q
      | cons i' rest ihl =>
        intro hl d hd q
        rw [List.foldl_cons]
        apply ihl (fun x hx => hl x (List.mem_cons_of_mem _ hx))
        intro q2
        dsimp only
        split
        · rename_i hvalid
          have hii : i' ≠ i := by
            intro h
            exact hl i' (List.mem_cons_self _ _) h hvalid
          have hinner : ∀ (lj : List ℕ) (d2 : List (List ℚ)), (∀ q3, get2D d2 q3 i = 0) →
              ∀ q3, get2D (lj.foldl (fun d2 j =>
                if |A.get j (basis.getD i' (-1)).toNat| > lpTol then
                  set2D d2 j i' (A.get j (basis.getD i' (-1)).toNat)
                else d2) d2) q3 i = 0 := by
            intro lj
            induction lj with
            | nil => intro d2 hd2 q3; exact hd2 q3
            | cons j2 rest2 ihj =>
              intro d2 hd2 q3
              rw [List.foldl_cons]
              apply ihj
              intro q4
              dsimp only
              split
              · rw [get2D_set2D_ne _ (Or.inr hii)]
                exact hd2 q4
              · exact hd2 q4
          exact hinner _ d hd q2
        · exact hd q2
    apply h
    · intro x hx hxi
      rw [List.mem_range] at hx
      rw [hxi]
      exact hinv
    · intro q
      exact get2D_zeros m m q i

/-! ### The Fitter (`class Cobs`, `src/cobs.ts`) -/

/-- Tagged constraint variants (`src/types.ts`); optional fields mirror
possibly-`undefined` JS fields, and `operator` stays a raw string (the JS
guard treats the empty string as falsy). -/
inductive Constraint where
  | monotone (increasing : Option Bool)
  | convex (convex : Option Bool)
  | concave
  | periodic
  | pointwise (x : Option ℚ) (y : Option ℚ) (op : Option String)
deriving DecidableEq

structure CobsOptions where
  order : Option ℕ := none
  knots : Option (List ℚ) := none
  constraints : List Constraint := []
  tau : Option ℚ := none
deriving DecidableEq

/-- The mutable per-instance state of a `Cobs` object (`this.order`,
`this.knots`), reassigned by every `fit` call. -/
structure CobsState where
  order : ℕ
  knots : List ℚ
deriving DecidableEq

/-- A fresh `new Cobs()`: `order = 4`, `knots = []`. -/
def initialCobs : CobsState := ⟨4, []⟩

structure CobsResult where
  coefficients : List ℚ
  error : ℚ
  fitted : List ℚ
  residuals : List ℚ
  knots : List ℚ
  order : ℕ
  tau : Option ℚ
deriving DecidableEq

/-- `Cobs.generatePointwiseConstraints(design, x, y, operator)`: one row
(`<=`, `>=`) or an opposed pair (`=`) of basis-row inequalities, each row
emitted only if it has an entry above `1e-10`; unknown operators throw.
The basis row is a fresh one-point design matrix at `x*` over the CURRENT
`this.order`/`this.knots` (so this builder can throw the design-construction
error, which `fit`'s catch converts into the LS fallback). -/
def generatePointwiseConstraints (st : CobsState) (design : Mat) (x_val y_val : ℚ)
    (op : String) : Except JsErr (Mat × List ℚ) :=
  let numBasis := design.cols
  match createDesignMatrix [x_val] st.order st.knots with
  | .error e => .error e
  | .ok basisAtXRow =>
    let bc : ℕ → ℚ := fun j => basisAtXRow.get 0 j
    if op = ("=") then
      let row1 := (List.range numBasis).filterMap (fun j =>
        if |bc j| > tolBuild then some ((bc j, 0, j) : ℚ × ℕ × ℕ) else none)
      let r1 := if row1 = [] then 0 else 1
      let row2 := (List.range numBasis).filterMap (fun j =>
        if |bc j| > tolBuild then some ((-bc j, r1, j) : ℚ × ℕ × ℕ) else none)
      let rows := r1 + (if row2 = [] then 0 else 1)
      .ok (matOfSparse rows numBasis (row1 ++ row2),
        (if row1 = [] then [] else [y_val]) ++ (if row2 = [] then [] else [-y_val]))
    else if op = (">=") then
      let row := (List.range numBasis).filterMap (fun j =>
        if |bc j| > tolBuild then some ((-bc j, 0, j) : ℚ × ℕ × ℕ) else none)
      if row = [] then .ok (matOfSparse 0 numBasis [], [])
      else .ok (matOfSparse 1 numBasis row, [-y_val])
    else if op = ("<=") then
      let row := (List.range numBasis).filterMap (fun j =>
        if |bc j| > tolBuild then some ((bc j, 0, j) : ℚ × ℕ × ℕ) else none)
      if row = [] then .ok (matOfSparse 0 numBasis [], [])
      else .ok (matOfSparse 1 numBasis row, [y_val])
    else .error (.unsupportedOperator (String.append ("Unsupported operator: ") op))

/-- The per-constraint `switch` of `Cobs.solveConstrainedProblem`: skipped
variants (monotone without `increasing`, pointwise with missing fields or a
falsy operator) contribute nothing; the `default` throw of the switch is
unrepresentable here because `Constraint` enumerates exactly the handled
tags. -/
def collectConstraints (st : CobsState) (design : Mat) :
    List Constraint → Except JsErr (List (Mat × List ℚ))
  | [] => .ok []
  | c :: rest =>
    let one : Except JsErr (Option (Mat × List ℚ)) :=
      match c with
      | .monotone none => .ok none
      | .monotone (some inc) => .ok (some (generateMonotonicityConstraints design inc))
      | .convex none => .ok (some (generateConvexityConstraints design true))
      | .convex (some cv) => .ok (some (generateConvexityConstraints design cv))
      | .concave => .ok (some (generateConvexityConstraints design false))
      | .periodic => .ok (some (generatePeriodicityConstraints design))
      | .pointwise (some xv) (some yv) (some op) =>
        if op = ("") then .ok none
        else (generatePointwiseConstraints st design xv yv op).map some
      | .pointwise _ _ _ => .ok none
    match one with
    | .error e => .error e
    | .ok none => collectConstraints st design rest
    | .ok (some item) => (collectConstraints st design rest).map (fun items => item :: items)

/-- The stacking loop of `Cobs.solveConstrainedProblem`: a fresh sparse
matrix of `totalRows` rows, written entry-by-entry (`|value| > 1e-10` only)
with a running row offset, and `b` concatenated row-by-row. -/
def assembleFold : List (Mat × List ℚ) → ℕ → List (List ℚ) → List ℚ → List (List ℚ) × List ℚ
  | [], _, d, bacc => (d, bacc)
  | (M, v) :: rest, currentRow, d, bacc =>
    let d2 := (List.range M.rows).foldl
      (fun dd row =>
        (List.range M.cols).foldl
          (fun ddd col =>
            if |M.get row col| > tolBuild then set2D ddd (currentRow + row) col (M.get row col)
            else ddd)
          dd)
      d
    assembleFold rest (currentRow + M.rows) d2 (bacc ++ (List.range M.rows).map (v.getD · 0))

/-- `Cobs.solveConstrainedProblem(design, y, constraints)`.  `y` is accepted
and never used, exactly as in the source. -/
def solveConstrainedProblem (st : CobsState) (design : Mat) (y : List ℚ)
    (constraints : List Constraint) : Except JsErr (Mat × List ℚ) :=
  if constraints = [] then .ok (matOfSparse 0 design.cols [], [])
  else
    match collectConstraints st design constraints with
    | .error e => .error e
    | .ok items =>
      if items = [] then .ok (matOfSparse 0 design.cols [], [])
      else
        let totalRows := (items.map (fun it => it.1.rows)).sum
        let db := assembleFold items 0 (zeros2D totalRows design.cols) []
        .ok (⟨totalRows, design.cols, db.1⟩, db.2)

/-- `options.order` resolution and validation (default 4, reject `< 1`). -/
def resolveOrder (opts : CobsOptions) : Except JsErr ℕ :=
  match opts.order with
  | some o =>
    if o < 1 then .error (.invalid ("Order must be an integer greater than or equal to 1."))
    else .ok o
  | none => .ok 4

/-- `options.knots` validation (length ≥ 2·order, non-decreasing) or knot
generation.  The `x.length === 0` guard before `generateKnots` is dead code
(`fit` has already required at least two points). -/
def resolveKnots (x : List ℚ) (order : ℕ) (opts : CobsOptions) : Except JsErr (List ℚ) :=
  match opts.knots with
  | some ks =>
    if ks.length < 2 * order then
      .error (.invalid ("Provided knots array is too short for this order."))
    else if ks.Chain' (· ≤ ·) then .ok ks
    else .error (.invalid ("Provided knots array must be sorted non-decreasingly."))
  | none => .ok (generateKnots order x)

/-- The fitted value `Σ_j row[j]·c[j]` (j bounded by both the coefficient
count and the single-point design row width), with the row built from the
given state — used for `fitted`, `calculateError`, and the result's
`evaluate` closure. -/
def fittedAt (st : CobsState) (coefficients : List ℚ) (xi : ℚ) : ℚ :=
  let row := (designRow xi st.order st.knots).map jsRound12
  ((List.range coefficients.length).map (fun j =>
    if j < row.length then row.getD j 0 * coefficients.getD j 0 else 0)).sum

/-- The result's `pp.evaluate` closure.  The JS closure reads `this.order`
and `this.knots` AT CALL TIME (the arrow function captures `this`, not a
snapshot), so the embedding takes the Cobs state current when the closure is
invoked; it throws if the current knots give an empty basis. -/
def evaluateClosure (st : CobsState) (coefficients : List ℚ) (xi : ℚ) : Except JsErr ℚ :=
  match createDesignMatrix [xi] st.order st.knots with
  | .error e => .error e
  | .ok row =>
    .ok (((List.range coefficients.length).map (fun j =>
      if j < row.cols then row.get 0 j * coefficients.getD j 0 else 0)).sum)

/-- `Cobs.createResult(coefficients, x, y, tau)` (data fields only; the two
evaluator closures are modelled by `evaluateClosure` applied to the live
state, see C2).  `fitted`, `residuals` and `error` recompute the design
rows from the state exactly as the source does. -/
def createResult (st : CobsState) (coefficients : List ℚ) (x y : List ℚ)
    (tau : Option ℚ) : CobsResult :=
  let fitted := x.map (fun xi => fittedAt st coefficients xi)
  { coefficients := coefficients
    error := ((List.range y.length).map (fun i => (y.getD i 0 - fitted.getD i 0) ^ 2)).sum
    fitted := fitted
    residuals := (List.range y.length).map (fun i => y.getD i 0 - fitted.getD i 0)
    knots := st.knots
    order := st.order
    tau := tau }

/-- `Cobs.fit(x, y, options)`: validation, state mutation (`this.order`,
`this.knots`), design construction, the constrained branch in a `try` whose
`catch` re-throws only `Unsupported …` errors, JS-truthiness of the solver
result (a zero array IS truthy), the length re-check, the 12-decimal
rounding, and the regularized-LS fallback. -/
def fit (st : CobsState) (x y : List ℚ) (opts : CobsOptions) :
    Except JsErr (CobsState × CobsResult) :=
  if x.length ≠ y.length then
    .error (.invalid ("Input arrays x and y must have the same length"))
  else if x.length < 2 then
    .error (.invalid ("At least two data points are required"))
  else
    match resolveOrder opts with
    | .error e => .error e
    | .ok order =>
      match resolveKnots x order opts with
      | .error e => .error e
      | .ok knots =>
        match createDesignMatrix x order knots with
        | .error e => .error e
        | .ok design =>
          if design.rows = 0 ∨ design.cols = 0 then
            .error (.invalid ("Design matrix is empty, cannot proceed with fit."))
          else
            let solverSolution : Except JsErr (Option (List ℚ)) :=
              if opts.constraints ≠ [] then
                match solveConstrainedProblem ⟨order, knots⟩ design y opts.constraints with
                | .error e => if e.isUnsupported then .error e else .ok none
                | .ok Ab =>
                  if 0 < Ab.1.rows then
                    match lpSolve Ab.1 Ab.2 (List.replicate design.cols 1) with
                    | .error e => if e.isUnsupported then .error e else .ok none
                    | .ok sol => .ok (some sol)
                  else .ok none
              else .ok none
            match solverSolution with
            | .error e => .error e
            | .ok sol? =>
              let final : Except JsErr (List ℚ) :=
                match sol? with
                | some sol =>
                  if sol.length ≠ design.cols then
                    (design.solve y).map (fun u => u.map jsRound12)
                  else .ok (sol.map jsRound12)
                | none => (design.solve y).map (fun u => u.map jsRound12)
              match final with
              | .error e => .error e
              | .ok coeffs =>
                .ok (⟨order, knots⟩, createResult ⟨order, knots⟩ coeffs x y opts.tau)

/-! ### Claim C10: monotone constraint without `increasing` -/

set_option maxRecDepth 8000 in
/-- C10: a `{type:'monotone'}` constraint whose `increasing` field is absent
falls through the `switch` without contributing rows and without error
(`if (constraint.increasing !== undefined)`), so a fit whose only constraint
it is coincides with the unconstrained fit — same fallback to regularized
least squares, same result. -/
theorem C10_monotone_without_increasing (st : CobsState) (x y : List ℚ)
    (order : Option ℕ) (knots : Option (List ℚ)) (tau : Option ℚ) :
    fit st x y ⟨order, knots, [Constraint.monotone none], tau⟩
      = fit st x y ⟨order, knots, [], tau⟩ := rfl

/-! ### Claim C1: the zero-vector sentinel is NOT recovered -/

def c1opts : CobsOptions :=
  ⟨some 1, none, [Constraint.pointwise (some 0) (some 1) (some (">="))], none⟩

/-- C1 (code bug).  `LPSolver.solve()` returns `number[]`, never `null`, yet
`fit` tests `if (solverSolution)` — and a JS array (the all-zeros sentinel
included) is always truthy.  At `x = [0,1]`, `y = [1,1]`, order 1, with the
pointwise constraint `ŝ(0) ≥ 1`, the solver hits a singular basis and
returns the `[0,0]` sentinel; `fit` adopts it as the coefficient vector
instead of falling back to the regularized LS solution
`[0.9999999999, 0.9999999999]` promised by the claim (and by the source's
own comments `// Can be null if LP is infeasible` and fallback list). -/
theorem C1_codebug :
    (fit initialCobs [0, 1] [1, 1] c1opts).toOption.map (fun p => p.2.coefficients)
      = some [0, 0] ∧
    ((createDesignMatrix [0, 1] 1 (generateKnots 1 [0, 1])).toOption.bind
        (fun design => (design.solve [1, 1]).toOption.map (fun u => u.map jsRound12)))
      = some [9999999999 / 10 ^ 10, 9999999999 / 10 ^ 10] ∧
    ¬([0, 0] : List ℚ) = [9999999999 / 10 ^ 10, 9999999999 / 10 ^ 10] := by
  refine ⟨by decide, by decide, by decide⟩

/-! ### Claim C2: result evaluators read live Fitter state -/

def c2opts1 : CobsOptions := ⟨some 1, none, [], none⟩

def c2opts2 : CobsOptions := ⟨some 2, none, [], none⟩

set_option maxRecDepth 100000 in
/-- C2 (code bug).  The `evaluate` closure of a returned result reads
`this.order`/`this.knots` at call time.  Fitting `[0,1] ↦ [1,3]` at order 1
gives a result whose `evaluate(1/2)` is `1.9999999998`; after a second
`fit` on the same instance with order 2, the SAME first result's
`evaluate(1/2)` becomes `1.749999999825` — the evaluator is not a pure
function of the result's own `(knots, order, coefficients)`. -/
theorem C2_codebug :
    ((fit initialCobs [0, 1] [1, 3] c2opts1).toOption.bind (fun p1 =>
        (fit p1.1 [0, 1] [0, 0] c2opts2).toOption.bind (fun p2 =>
          (evaluateClosure p1.1 p1.2.coefficients (1 / 2)).toOption.bind (fun e1 =>
            (evaluateClosure p2.1 p1.2.coefficients (1 / 2)).toOption.map (fun e2 =>
              (e1, e2))))))
      = some (9999999999 / 5000000000, 69999999993 / 40000000000) ∧
    ¬(9999999999 / 5000000000 : ℚ) = 69999999993 / 40000000000 := by
  refine ⟨by decide, by decide⟩

/-! ### Claim C5: LP-path coefficients are independent of y -/

/-- The y-free replay of `fit`'s LP branch: `some sol` exactly when a fit
with this `x` and these options runs the LP to completion and adopts `sol`
(of the right length) as the solver solution.  No step reads `y`: the
design depends on `x`/knots/order, `solveConstrainedProblem` ignores its
`y` argument, and the objective is the all-ones vector. -/
def lpPath (x : List ℚ) (opts : CobsOptions) : Option (List ℚ) :=
  if x.length < 2 then none
  else
    match resolveOrder opts with
    | .error _ => none
    | .ok order =>
      match resolveKnots x order opts with
      | .error _ => none
      | .ok knots =>
        match createDesignMatrix x order knots with
        | .error _ => none
        | .ok design =>
          if design.rows = 0 ∨ design.cols = 0 then none
          else if opts.constraints ≠ [] then
            match solveConstrainedProblem ⟨order, knots⟩ design [] opts.constraints with
            | .error _ => none
            | .ok Ab =>
              if 0 < Ab.1.rows then
                match lpSolve Ab.1 Ab.2 (List.replicate design.cols 1) with
                | .error _ => none
                | .ok sol => if sol.length = design.cols then some sol else none
              else none
          else none

/-- When the LP path completes, `fit` returns exactly the rounded LP
solution as its coefficient vector — regardless of `y` (which only shapes
the fitted values and residuals). -/
theorem fit_lpPath (st : CobsState) (x y : List ℚ) (opts : CobsOptions) (sol : List ℚ)
    (hy : x.length = y.length) (hlp : lpPath x opts = some sol) :
    (fit st x y opts).toOption.map (fun p => p.2.coefficients)
      = some (sol.map jsRound12) := by
  rw [lpPath] at hlp
  split at hlp
  · cases hlp
  rename_i hx2
  split at hlp
  · cases hlp
  rename_i order horder
  split at hlp
  · cases hlp
  rename_i knots hknots
  split at hlp
  · cases hlp
  rename_i design hdesign
  split at hlp
  · cases hlp
  rename_i hdim
  split at hlp
  case isFalse => cases hlp
  rename_i hcons
  split at hlp
  · cases hlp
  rename_i Ab hAb
  split at hlp
  case isFalse => cases hlp
  rename_i hrows
  split at hlp
  · cases hlp
  rename_i sol2 hsol2
  split at hlp
  case isFalse => cases hlp
  rename_i hlen
  cases hlp
  have hne : ¬x.length ≠ y.length := by omega
  rw [fit, if_neg hne, if_neg hx2]
  simp only [horder, hknots, hdesign]
  rw [if_neg hdim]
  have hsc : solveConstrainedProblem ⟨order, knots⟩ design y opts.constraints
      = Except.ok Ab := hAb
  simp only [if_pos hcons, hsc, if_pos hrows, hsol2]
  rw [if_neg (show ¬sol.length ≠ design.cols by omega)]
  rfl

/-- C5: two fits with the same `x` and options whose LP path completes
return identical coefficient vectors, whatever the two `y` vectors are. -/
theorem C5_lp_coefficients_independent_of_y (st : CobsState) (x y₁ y₂ : List ℚ)
    (opts : CobsOptions) (h1 : x.length = y₁.length) (h2 : x.length = y₂.length)
    (hlp : (lpPath x opts).isSome = true) :
    (fit st x y₁ opts).toOption.map (fun p => p.2.coefficients)
      = (fit st x y₂ opts).toOption.map (fun p => p.2.coefficients) := by
  obtain ⟨sol, hsol⟩ := Option.isSome_iff_exists.mp hlp
  rw [fit_lpPath st x y₁ opts sol h1 hsol, fit_lpPath st x y₂ opts sol h2 hsol]

def c5opts : CobsOptions :=
  ⟨some 1, none, [Constraint.pointwise (some (1 / 2)) (some 1) (some (">="))], none⟩

/-- C5 witness: with `x = [0,1]` and a pointwise `ŝ(1/2) ≥ 1` constraint the
LP completes (solution `[0,2]`); the coefficients for `y = [1,1]` and
`y = [2,3]` agree. -/
theorem C5_witness :
    ([0, 1] : List ℚ).length = ([1, 1] : List ℚ).length ∧
    ([0, 1] : List ℚ).length = ([2, 3] : List ℚ).length ∧
    (lpPath [0, 1] c5opts).isSome = true ∧
    (fit initialCobs [0, 1] [1, 1] c5opts).toOption.map (fun p => p.2.coefficients)
      = (fit initialCobs [0, 1] [2, 3] c5opts).toOption.map (fun p => p.2.coefficients) :=
  ⟨by decide, by decide, by decide,
    C5_lp_coefficients_independent_of_y initialCobs [0, 1] [1, 1] [2, 3] c5opts
      (by decide) (by decide) (by decide)⟩

/-! ### Generic list helpers -/

theorem range'_concat_one (s n : ℕ) : List.range' s (n + 1) = List.range' s n ++ [s + n] := by
  have h : List.range' s (n + 1) 1 = List.range' s n 1 ++ [s + 1 * n] := List.range'_concat s n
  simpa using h

theorem chain'_replicate_le (m : ℕ) (q : ℚ) : (List.replicate m q).Chain' (· ≤ ·) := by
  induction m with
  | zero => simp
  | succ n ih => cases n <;> simp_all [List.replicate_succ, List.chain'_cons]

theorem getLast?_replicate_succ (m : ℕ) (q : ℚ) :
    (List.replicate (m + 1) q).getLast? = some q := by
  rw [List.replicate_succ' m q]; exact List.getLast?_concat _

theorem head?_replicate_succ (m : ℕ) (q : ℚ) :
    (List.replicate (m + 1) q).head? = some q := by
  simp [List.replicate_succ]

theorem sorted_getD_le (l : List ℚ) (h : List.Sorted (· ≤ ·) l) {i j : ℕ}
    (hij : i ≤ j) (hj : j < l.length) : l.getD i 0 ≤ l.getD j 0 := by
  rcases eq_or_lt_of_le hij with rfl | hlt
  · exact le_refl _
  · have hg := List.pairwise_iff_get.mp h ⟨i, lt_trans hlt hj⟩ ⟨j, hj⟩ hlt
    simp only [List.get_eq_getElem] at hg
    rwa [List.getD_eq_getElem?_getD, List.getD_eq_getElem?_getD,
      List.getElem?_eq_getElem (lt_trans hlt hj), List.getElem?_eq_getElem hj]

/-! ### Claim C6: knot bookkeeping -/

/-- C6 counterexample.  The claim asserts the generated knot vector has length
`n + k + 1` for every `n ≥ 2`, `k ≥ 1`; but for `x = [0,1]` (n = 2) and the
default order `k = 4` the source emits `2·(k+1) = 10` knots, not `7`:
there are no interior knots and the clamps alone contribute `10`. -/
theorem C6_counterexample :
    (generateKnots 4 [0, 1]).length = 10 ∧ ¬(generateKnots 4 [0, 1]).length = 2 + 4 + 1 := by
  decide

/-- C6 amended: for `x` of length `n ≥ 2`, order `k ≥ 1` and `x[0] < x[n-1]`,
the generated knot vector has length `max n (k+1) + k + 1` (which is
`n + k + 1` exactly when `n ≥ k + 1`), its first `k+1` entries equal `x[0]`,
its last `k+1` entries equal `x[n-1]`, the interior knots lie strictly in
`(x[0], x[n-1])`, and the whole vector is non-decreasing. -/
theorem C6_generateKnots_spec (k : ℕ) (x : List ℚ) (hk : 1 ≤ k) (hn : 2 ≤ x.length)
    (hx : x.getD 0 0 < x.getD (x.length - 1) 0) : KnotSpec k x := by
  set n := x.length with hn'
  set mn := x.getD 0 0 with hmn
  set mx := x.getD (n - 1) 0 with hmx
  set nI := n - (k + 1) with hnI
  set st := (mx - mn) / ((nI : ℚ) + 1) with hst
  set inter := (List.range' 1 nI).map (fun (i : ℕ) => mn + (i : ℚ) * st) with hinter
  have hstpos : 0 < st := by
    apply div_pos (by linarith) (by positivity)
  have hT : generateKnots k x
      = List.replicate (k + 1) mn ++ inter ++ List.replicate (k + 1) mx := rfl
  have hinterlen : inter.length = nI := by simp [hinter]
  have hlen : (generateKnots k x).length = (k + 1) + nI + (k + 1) := by
    simp [hT, hinterlen]; omega
  have hcast : ((nI : ℚ) + 1) * st = mx - mn := by
    rw [hst]; field_simp
  refine ⟨?_, ?_, ?_, ?_, ?_⟩
  · rw [hlen]; omega
  · rw [hT, List.take_append_of_le_length (by simp), List.take_append_of_le_length (by simp),
      List.take_replicate, min_self]
  · rw [hlen, hT]
    have harith : (k + 1) + nI + (k + 1) - (k + 1)
        = (List.replicate (k + 1) mn ++ inter).length + 0 := by
      simp [hinterlen]
    rw [harith, List.drop_append, List.drop_zero]
  · intro t ht
    rw [hT, List.append_assoc] at ht
    have hdrop : (List.replicate (k + 1) mn ++ (inter ++ List.replicate (k + 1) mx)).drop (k + 1)
        = inter ++ List.replicate (k + 1) mx := by
      have h0 := List.drop_left (List.replicate (k + 1) mn) (inter ++ List.replicate (k + 1) mx)
      simpa using h0
    have harith2 : (List.replicate (k + 1) mn ++ (inter ++ List.replicate (k + 1) mx)).length
        - 2 * (k + 1) = nI := by
      simp [hinterlen]; omega
    rw [harith2, hdrop, List.take_append_of_le_length (by simp [hinterlen])] at ht
    have ht' : t ∈ inter := by
      have := List.take_subset nI inter
      exact this ht
    rw [hinter] at ht'
    obtain ⟨i, hi, rfl⟩ := List.mem_map.mp ht'
    rw [List.mem_range'_1] at hi
    have hi1 : (1 : ℚ) ≤ (i : ℚ) := by exact_mod_cast hi.1
    have hi2 : (i : ℚ) < (nI : ℚ) + 1 := by
      have h2 : i < nI + 1 := by omega
      exact_mod_cast h2
    constructor
    · have : 0 < (i : ℚ) * st := mul_pos (by linarith) hstpos
      linarith
    · have : (i : ℚ) * st < ((nI : ℚ) + 1) * st := by
        exact mul_lt_mul_of_pos_right hi2 hstpos
      rw [hcast] at this
      linarith
  · rw [hT, List.append_assoc]
    have hchinter : inter.Chain' (· ≤ ·) := by
      rw [hinter]
      apply List.Pairwise.chain'
      apply (List.pairwise_map).mpr
      apply (List.pairwise_lt_range' 1 nI).imp
      intro a b hab
      have : (a : ℚ) ≤ (b : ℚ) := by exact_mod_cast le_of_lt hab
      have := mul_le_mul_of_nonneg_right this (le_of_lt hstpos)
      linarith
    have hlast_inter : ∀ a ∈ inter.getLast?, a ≤ mx := by
      intro a ha
      rcases Nat.eq_zero_or_pos nI with h0 | hpos
      · rw [hinter, h0] at ha; simp at ha
      · obtain ⟨m, hm⟩ : ∃ m, nI = m + 1 := ⟨nI - 1, by omega⟩
        rw [hinter, hm] at ha
        rw [range'_concat_one 1 m] at ha
        simp only [List.map_append, List.map_cons, List.map_nil] at ha
        rw [List.getLast?_concat] at ha
        simp only [Option.mem_def, Option.some.injEq] at ha
        subst ha
        have hlt : ((1 + m : ℕ) : ℚ) * st < ((nI : ℚ) + 1) * st := by
          apply mul_lt_mul_of_pos_right _ hstpos
          rw [hm]; push_cast; linarith
        rw [hcast] at hlt
        linarith
    apply List.Chain'.append (chain'_replicate_le _ _)
    · apply List.Chain'.append hchinter (chain'_replicate_le _ _)
      intro a ha b hb
      rw [head?_replicate_succ] at hb
      cases hb
      exact hlast_inter a ha
    · intro a ha b hb
      rw [getLast?_replicate_succ] at ha
      cases ha
      rcases Nat.eq_zero_or_pos nI with h0 | hpos
      · rw [hinter, h0] at hb
        simp only [List.range'_zero, List.map_nil, List.nil_append] at hb
        rw [head?_replicate_succ] at hb
        cases hb
        linarith
      · obtain ⟨m, hm⟩ : ∃ m, nI = m + 1 := ⟨nI - 1, by omega⟩
        rw [hinter, hm] at hb
        rw [show List.range' 1 (m + 1) = 1 :: List.range' 2 m from rfl] at hb
        simp only [List.map_cons, List.cons_append, List.head?_cons, Option.mem_def,
          Option.some.injEq] at hb
        subst hb
        push_cast
        linarith

/-! ### Claim C9: partition of unity of the de Boor recurrence -/

/-- The binary-search loop keeps its result inside the bracket `[low, high)`
whenever the bracket invariant `T[low] ≤ x < T[high]` holds. -/
theorem findSpanLoop_bounds (T : List ℚ) (x : ℚ) :
    ∀ (fuel low high : ℕ), low ≤ high → knotAt T low ≤ x → x < knotAt T high →
      low ≤ findSpanLoop T x fuel low high ∧ findSpanLoop T x fuel low high < high := by
  intro fuel
  induction fuel with
  | zero =>
    intro low high hlh hl hh
    have hne : low ≠ high := by rintro rfl; exact absurd (lt_of_le_of_lt hl hh) (lt_irrefl _)
    have hlt : low < high := lt_of_le_of_ne hlh hne
    simp only [findSpanLoop]
    split <;> constructor <;> omega
  | succ fuel ih =>
    intro low high hlh hl hh
    have hne : low ≠ high := by rintro rfl; exact absurd (lt_of_le_of_lt hl hh) (lt_irrefl _)
    have hlt : low < high := lt_of_le_of_ne hlh hne
    simp only [findSpanLoop]
    split
    · split
      · rename_i hcond hxm
        have hb := ih low ((low + high) / 2) (by omega) hl hxm
        constructor <;> omega
      · rename_i hcond hxm
        push_neg at hxm
        rcases hcond with hcl | hcr
        · exact absurd hcl (not_lt.mpr hxm)
        · have hb := ih ((low + high) / 2) high (by omega) hxm hh
          constructor <;> omega
    · constructor <;> omega

/-- `findSpan` always lands in the valid span range `[order, n_deboor]`
(so in particular `span + order + 1 < |T|`) whenever `|T| ≥ 2·order + 2`. -/
theorem findSpan_bounds (x : ℚ) (order : ℕ) (T : List ℚ) (hlen : 2 * order + 2 ≤ T.length) :
    order ≤ findSpan x order T ∧ findSpan x order T ≤ T.length - order - 2 := by
  unfold findSpan
  dsimp only
  split
  · constructor <;> omega
  · split
    · constructor <;> omega
    · rename_i h1 h2
      push_neg at h1 h2
      have hb := findSpanLoop_bounds T x T.length order (T.length - order - 2 + 1)
        (by omega) (le_of_lt h2) h1
      constructor <;> omega

/-- Telescoping sum of one inner de Boor pass: when no denominator in range
vanishes, the pass preserves the running total (plus the incoming `saved`). -/
theorem deBoorGo_sum (lt rt : ℕ → ℚ) (j : ℕ) :
    ∀ (prev : List ℚ) (r : ℕ) (saved : ℚ),
      (∀ i, r ≤ i → i < r + prev.length → rt (i + 1) + lt (j - i) ≠ 0) →
      (deBoorGo lt rt j r saved prev).sum = saved + prev.sum := by
  intro prev
  induction prev with
  | nil => intro r saved _; simp [deBoorGo]
  | cons b rest ih =>
    intro r saved hden
    have hd : rt (r + 1) + lt (j - r) ≠ 0 := hden r le_rfl (by simp)
    simp only [deBoorGo, List.sum_cons]
    rw [ih (r + 1) _ (fun i h1 h2 => hden i (by omega) (by simp at h2 ⊢; omega))]
    rw [if_neg hd]
    have hsplit : rt (r + 1) * (b / (rt (r + 1) + lt (j - r)))
        + lt (j - r) * (b / (rt (r + 1) + lt (j - r))) = b := by
      field_simp
      ring
    linarith

/-- One inner de Boor pass grows the basis prefix by one entry. -/
theorem deBoorGo_length (lt rt : ℕ → ℚ) (j : ℕ) :
    ∀ (prev : List ℚ) (r : ℕ) (saved : ℚ),
      (deBoorGo lt rt j r saved prev).length = prev.length + 1 := by
  intro prev
  induction prev with
  | nil => intro r saved; simp [deBoorGo]
  | cons b rest ih => intro r saved; simp only [deBoorGo, List.length_cons, ih]

/-- Positivity of every de Boor denominator at a non-degenerate span of a
non-decreasing knot vector. -/
theorem deBoor_den_pos (T : List ℚ) (x : ℚ) (order span : ℕ)
    (hs : List.Sorted (· ≤ ·) T) (hspan1 : order ≤ span) (hspan2 : span + order + 1 ≤ T.length)
    (hgap : knotAt T span < knotAt T (span + 1)) :
    ∀ j r, 1 ≤ j → j ≤ order → r < j →
      (knotAt T (span + (r + 1)) - x) + (x - knotAt T (span + 1 - (j - r))) ≠ 0 := by
  intro j r hj1 hj2 hr
  have hlo : knotAt T (span + 1 - (j - r)) ≤ knotAt T span := by
    apply sorted_getD_le T hs (by omega) (by omega)
  have hhi : knotAt T (span + 1) ≤ knotAt T (span + (r + 1)) := by
    apply sorted_getD_le T hs (by omega) (by omega)
  have : 0 < knotAt T (span + (r + 1)) - knotAt T (span + 1 - (j - r)) := by linarith
  intro hzero
  apply absurd this
  simp only [not_lt]
  linarith [hzero]

/-- Invariant of the level iteration of `evaluateBasis`: after levels
`1..t` the basis prefix has `t+1` entries and sums to `1`. -/
theorem evaluateBasis_invariant (T : List ℚ) (x : ℚ) (order span : ℕ)
    (hs : List.Sorted (· ≤ ·) T) (hspan1 : order ≤ span) (hspan2 : span + order + 1 ≤ T.length)
    (hgap : knotAt T span < knotAt T (span + 1)) :
    ∀ t, t ≤ order →
      (((List.range' 1 t).foldl
        (fun basis j =>
          deBoorGo (fun i => x - knotAt T (span + 1 - i)) (fun i => knotAt T (span + i) - x)
            j 0 0 basis) [1]).sum = 1 ∧
      ((List.range' 1 t).foldl
        (fun basis j =>
          deBoorGo (fun i => x - knotAt T (span + 1 - i)) (fun i => knotAt T (span + i) - x)
            j 0 0 basis) [1]).length = t + 1) := by
  intro t
  induction t with
  | zero => intro _; simp
  | succ t ih =>
    intro ht
    obtain ⟨ihsum, ihlen⟩ := ih (by omega)
    rw [range'_concat_one 1 t]
    rw [List.foldl_append, List.foldl_cons, List.foldl_nil]
    constructor
    · rw [deBoorGo_sum _ _ _ _ _ _ ?hden, ihsum]
      · ring
      case hden =>
        intro i h0 hi
        rw [ihlen] at hi
        exact deBoor_den_pos T x order span hs hspan1 hspan2 hgap (1 + t) i
          (by omega) (by omega) (by omega)
    · rw [deBoorGo_length, ihlen]

/-- C9 counterexample.  `T = [0,0,0,0,1,1,1]` is non-decreasing and clamped
for order `k = 2` (first three knots equal `0`, last three equal `1`), and
`x = 0` lies in the active interval `[T[2], T[4]] = [0, 1]`; but the span
found for `x = 0` is degenerate (`T[2] = T[3] = 0`), the guarded recurrence
zeroes every term, and the basis values sum to `0`, not `1 ± 1e-10`. -/
theorem C9_counterexample :
    List.Sorted (· ≤ ·) ([0, 0, 0, 0, 1, 1, 1] : List ℚ) ∧
    ([0, 0, 0, 0, 1, 1, 1] : List ℚ).take 3 = List.replicate 3 0 ∧
    ([0, 0, 0, 0, 1, 1, 1] : List ℚ).drop 4 = List.replicate 3 1 ∧
    knotAt [0, 0, 0, 0, 1, 1, 1] 2 ≤ 0 ∧ (0 : ℚ) ≤ knotAt [0, 0, 0, 0, 1, 1, 1] 4 ∧
    (evaluateBasis 0 2 (findSpan 0 2 [0, 0, 0, 0, 1, 1, 1]) [0, 0, 0, 0, 1, 1, 1]).sum = 0 ∧
    ¬|(evaluateBasis 0 2 (findSpan 0 2 [0, 0, 0, 0, 1, 1, 1]) [0, 0, 0, 0, 1, 1, 1]).sum - 1|
        ≤ tolBuild := by
  decide

/-- C9 amended: partition of unity holds (exactly, hence within `1e-10`)
for every non-decreasing knot vector with `|T| ≥ 2·order + 2` and every `x`
in the active interval whose span `s = findSpan x` is non-degenerate
(`T[s] < T[s+1]`); the counterexample above forces this span condition. -/
theorem C9_partition_of_unity (T : List ℚ) (order : ℕ) (x : ℚ)
    (hs : List.Sorted (· ≤ ·) T) (hlen : 2 * order + 2 ≤ T.length)
    (hx1 : knotAt T order ≤ x) (hx2 : x ≤ knotAt T (T.length - order - 1))
    (hgap : knotAt T (findSpan x order T) < knotAt T (findSpan x order T + 1)) :
    (evaluateBasis x order (findSpan x order T) T).sum = 1 ∧
    |(evaluateBasis x order (findSpan x order T) T).sum - 1| ≤ tolBuild := by
  obtain ⟨hb1, hb2⟩ := findSpan_bounds x order T hlen
  have hmain := (evaluateBasis_invariant T x order (findSpan x order T) hs hb1
    (by omega) hgap order le_rfl).1
  have h1 : (evaluateBasis x order (findSpan x order T) T).sum = 1 := hmain
  refine ⟨h1, ?_⟩
  rw [h1]
  norm_num [tolBuild]

/-- C9 witness: the amended partition-of-unity theorem at `T = [0,0,1,1]`,
order 1, `x = 1/2`. -/
theorem C9_witness :
    List.Sorted (· ≤ ·) ([0, 0, 1, 1] : List ℚ) ∧ 2 * 1 + 2 ≤ ([0, 0, 1, 1] : List ℚ).length ∧
    knotAt [0, 0, 1, 1] 1 ≤ (1 / 2 : ℚ) ∧
    (1 / 2 : ℚ) ≤ knotAt [0, 0, 1, 1] (([0, 0, 1, 1] : List ℚ).length - 1 - 1) ∧
    knotAt [0, 0, 1, 1] (findSpan (1 / 2) 1 [0, 0, 1, 1])
      < knotAt [0, 0, 1, 1] (findSpan (1 / 2) 1 [0, 0, 1, 1] + 1) ∧
    (evaluateBasis (1 / 2) 1 (findSpan (1 / 2) 1 [0, 0, 1, 1]) [0, 0, 1, 1]).sum = 1 ∧
    |(evaluateBasis (1 / 2) 1 (findSpan (1 / 2) 1 [0, 0, 1, 1]) [0, 0, 1, 1]).sum - 1|
      ≤ tolBuild :=
  ⟨by decide, by decide, by decide, by decide, by decide,
    (C9_partition_of_unity [0, 0, 1, 1] 1 (1 / 2) (by decide) (by decide) (by decide)
      (by decide) (by decide)).1,
    (C9_partition_of_unity [0, 0, 1, 1] 1 (1 / 2) (by decide) (by decide) (by decide)
      (by decide) (by decide)).2⟩

/-- C6 witness: the amended knot-bookkeeping property instantiated at
`x = [0,1,2,3,4,5]`, order 1. -/
theorem C6_witness :
    1 ≤ 1 ∧ 2 ≤ ([0, 1, 2, 3, 4, 5] : List ℚ).length ∧
      (([0, 1, 2, 3, 4, 5] : List ℚ).getD 0 0
        < ([0, 1, 2, 3, 4, 5] : List ℚ).getD (([0, 1, 2, 3, 4, 5] : List ℚ).length - 1) 0) ∧
      KnotSpec 1 [0, 1, 2, 3, 4, 5] :=
  ⟨le_refl 1, by decide, by decide,
    C6_generateKnots_spec 1 [0, 1, 2, 3, 4, 5] (le_refl 1) (by decide) (by decide)⟩

end CobsTs
